import Mathlib

/-!
Verification of the caching / deduplication / admission-control layer of the
kana-dojo repository.

The embedding models three modules:
* the server translation route (`/api/translate`, file `src/unnamed/part_001`),
  namespace `TranslateRoute`;
* the server analysis route (`/api/analyze-text`, file `src/unnamed/part_002`),
  namespace `AnalyzeRoute`;
* the client translation api (file `src/unnamed/part_000`, second document),
  namespace `ClientApi`.

JavaScript `Map`s are modelled as insertion-ordered association lists with
unique keys (`Store`).  Timestamps (`Date.now()`) are naturals; in the places
where the source subtracts timestamps (`now - value.timestamp > TTL`,
`now - cached.timestamp < TTL`) truncated natural subtraction agrees with the
JavaScript comparison because a negative difference compares the same way as 0
against the positive constants involved.

The cooperatively scheduled asynchronous parts (the in-flight request
deduplication of the client api, and the two lazy analyzer singletons) are
modelled as explicit transition systems whose atomic steps are the code
segments between `await` points of the source, with a nondeterministic
scheduler given by an explicit list of choices.
-/

/-- Strip leading whitespace, then trailing whitespace, from a character
list. -/
def trimChars (l : List Char) : List Char :=
  ((l.dropWhile Char.isWhitespace).reverse.dropWhile Char.isWhitespace).reverse

/-- Model of JavaScript `String.prototype.trim`: remove leading and trailing
whitespace.  (`Char.isWhitespace` stands in for the JavaScript whitespace
class; Lean core's `String.trim` is extensionally the same but its
`Substring`-based definition does not reduce in the kernel, so the claims'
concrete instances could not be evaluated with it.) -/
def jsTrim (s : String) : String :=
  String.mk (trimChars s.data)

/-- Association-list model of a JavaScript `Map` with string keys:
insertion order, at most one entry per key. -/
abbrev Store (α : Type) := List (String × α)

/-- `Map.get`. -/
def mapLookup {α : Type} (m : Store α) (k : String) : Option α :=
  (m.find? (fun p => p.1 == k)).map Prod.snd

/-- `Map.set`: overwrite in place when the key is present, append otherwise. -/
def mapSet {α : Type} (m : Store α) (k : String) (v : α) : Store α :=
  if m.any (fun p => p.1 == k) then
    m.map (fun p => if p.1 == k then (k, v) else p)
  else
    m ++ [(k, v)]

/-- `Map.delete`. -/
def mapDelete {α : Type} (m : Store α) (k : String) : Store α :=
  m.filter (fun p => p.1 != k)

/-- The freshness-checked lookup every consumer applies to its cache:
`cached && now - cached.timestamp < TTL` — an entry counts as a hit only
while its age is below the TTL (stale entries are treated as misses by the
caller, not removed by the store). -/
def freshLookup {α : Type} (ts : α → Nat) (ttl : Nat) (m : Store α)
    (k : String) (now : Nat) : Option α :=
  match mapLookup m k with
  | some e => if now - ts e < ttl then some e else none
  | none => none

/-- Well-formedness of the `Map` model: keys are pairwise distinct. -/
def keyNodup {α : Type} (m : Store α) : Prop :=
  (m.map Prod.fst).Nodup

/-- Sweep of entries whose age exceeds the TTL, shared shape of the
`for (const [key, value] of cache) if (now - value.timestamp > TTL) delete`
loops of both server routes and of the client cleanup. -/
def ttlSweep {α : Type} (ts : α → Nat) (ttl now : Nat) (m : Store α) : Store α :=
  m.filter (fun p => !(now - ts p.2 > ttl))

/-- Size-triggered batch eviction, shared shape of the second half of
`cleanupCache` in both server routes:
sort the entries by ascending timestamp, remove the oldest
`entries.length - maxSize / 2` of them by key. -/
def evictOldest {α : Type} (ts : α → Nat) (maxSize : Nat) (m : Store α) : Store α :=
  if m.length > maxSize then
    let entries := m.mergeSort (fun a b => decide (ts a.2 ≤ ts b.2))
    let toRemove := entries.take (entries.length - maxSize / 2)
    toRemove.foldl (fun acc q => mapDelete acc q.1) m
  else m

/-- `cleanupCache` of the server routes (`src/unnamed/part_001` lines 26-46 and
`src/unnamed/part_002` lines 46-66), generic over the entry type and the three
configured constants.  The TTL sweep is gated by the time elapsed since the
last cleanup; the size-triggered eviction is not.  Returns the new store and
the new `lastCleanupTime`. -/
def cleanupCacheG {α : Type} (ts : α → Nat) (ttl maxSize interval : Nat)
    (m : Store α) (lastCleanupTime now : Nat) : Store α × Nat :=
  let swept :=
    if now - lastCleanupTime > interval then (ttlSweep ts ttl now m, now)
    else (m, lastCleanupTime)
  (evictOldest ts maxSize swept.1, swept.2)

/-- Client-side languages, the source's `Language` type (`'en' | 'ja'`); named
`Lang` here because Mathlib already declares `Language`. -/
inductive Lang
  | en
  | ja
deriving DecidableEq, Repr

/-- The string a `Language` value interpolates to. -/
def languageCode : Lang → String
  | .en => "en"
  | .ja => "ja"

namespace TranslateRoute

/-- Entry of the server `translationCache`. -/
structure TransEntry where
  translatedText : String
  romanization : Option String
  timestamp : Nat
deriving DecidableEq, Repr

def CACHE_TTL : Nat := 1000 * 60 * 60

def MAX_CACHE_SIZE : Nat := 500

def CLEANUP_INTERVAL : Nat := 1000 * 60 * 5

/-- `getCacheKey` of the translate route. -/
def getCacheKey (text source target : String) : String :=
  source ++ ":" ++ target ++ ":" ++ text

/-- `cleanupCache` of the translate route. -/
def cleanupCache (m : Store TransEntry) (lastCleanupTime now : Nat) :
    Store TransEntry × Nat :=
  cleanupCacheG (fun e => e.timestamp) CACHE_TTL MAX_CACHE_SIZE CLEANUP_INTERVAL
    m lastCleanupTime now

end TranslateRoute

namespace AnalyzeRoute

/-- Simplified token returned to the client (`AnalyzedToken`). -/
structure AnalyzedToken where
  surface : String
  reading : Option String
  basicForm : Option String
  pos : String
  posDetail : String
deriving DecidableEq, Repr

/-- Entry of the server `analysisCache`. -/
structure AnalysisEntry where
  tokens : List AnalyzedToken
  timestamp : Nat
deriving DecidableEq, Repr

def CACHE_TTL : Nat := 1000 * 60 * 60

def MAX_CACHE_SIZE : Nat := 200

def CLEANUP_INTERVAL : Nat := 1000 * 60 * 5

/-- The analysis route has no key function: `analysisCache` is read and
written with the raw request text (`analysisCache.get(text)`,
`analysisCache.set(text, ...)`, lines 206 and 235 of `src/unnamed/part_002`). -/
def cacheKeyOf (text : String) : String := text

/-- `cleanupCache` of the analysis route. -/
def cleanupCache (m : Store AnalysisEntry) (lastCleanupTime now : Nat) :
    Store AnalysisEntry × Nat :=
  cleanupCacheG (fun e => e.timestamp) CACHE_TTL MAX_CACHE_SIZE CLEANUP_INTERVAL
    m lastCleanupTime now

end AnalyzeRoute

namespace ClientApi

/-- Successful payload of the client api (`TranslationAPIResponse`), the parts
the cache stores. -/
structure TranslationAPIResponse where
  translatedText : String
  romanization : Option String
deriving DecidableEq, Repr

/-- Entry of the client `clientCache`. -/
structure ClientEntry where
  response : TranslationAPIResponse
  timestamp : Nat
deriving DecidableEq, Repr

def CLIENT_CACHE_TTL : Nat := 1000 * 60 * 30

def MAX_CLIENT_CACHE_SIZE : Nat := 100

/-- `getClientCacheKey`. -/
def getClientCacheKey (text : String) (source target : Lang) : String :=
  languageCode source ++ ":" ++ languageCode target ++ ":" ++ jsTrim text

/-- `cleanupClientCache` (`src/unnamed/part_000` lines 244-253): when the cache
has grown past its maximum size, remove the entries whose age exceeds the TTL
— and only those. -/
def cleanupClientCache (m : Store ClientEntry) (now : Nat) : Store ClientEntry :=
  if m.length > MAX_CLIENT_CACHE_SIZE then
    m.filter (fun p => !(now - p.2.timestamp > CLIENT_CACHE_TTL))
  else m

end ClientApi

/-- Result of `rateLimiter.check(clientIP)`.  The rate limiter itself lives in
`@/shared/lib/rateLimit`, which is not among the provided sources; the routes
only consume its fields `allowed`, `reason` (compared against the strings
`"daily_quota"` and `"global_limit"`) and `retryAfter`.  The fields
`remaining` and `resetTime` are modelled from the spec (§6: rate-limit
responses "carry response headers describing remaining quota and reset
time"). -/
structure RateLimitResult where
  allowed : Bool
  reason : Option String
  retryAfter : Nat
  remaining : Nat
  resetTime : Nat
deriving DecidableEq, Repr

/-- Rate-limit response headers. -/
structure RateLimitHeaders where
  remaining : Nat
  reset : Nat
deriving DecidableEq, Repr

/-- Modelled from the spec: `createRateLimitHeaders` is declared in
`@/shared/lib/rateLimit`, which is not among the provided sources.  Per §6 the
headers describe the remaining quota and the reset time of the rate-limit
decision they are built from. -/
def createRateLimitHeaders (r : RateLimitResult) : RateLimitHeaders :=
  { remaining := r.remaining, reset := r.resetTime }

/-- Observable side-effect events of one request, in program order:
the admission (rate-limiter) check, the cache lookup, the external /
analyzer call, and the cache write. -/
inductive Ev
  | rateCheck
  | cacheRead
  | extCall
  | cacheWrite
deriving DecidableEq, Repr

/-- JSON response of a route, flattened: HTTP status plus the body fields any
branch of either route may populate (absent fields are `none`).  The analyze
route names its human-readable field `error` where the translate route uses
`message`; both are modelled by `message`. -/
structure ApiResponse where
  status : Nat
  code : Option String := none
  message : Option String := none
  retryAfter : Option Nat := none
  rlHeaders : Option RateLimitHeaders := none
  cachedFlag : Option Bool := none
  translatedText : Option String := none
  detectedSourceLanguage : Option String := none
  romanization : Option String := none
  tokens : Option (List AnalyzeRoute.AnalyzedToken) := none
deriving DecidableEq, Repr

/-- Everything one `POST` invocation produces: the response, the ordered
trace of side-effect events, and the module state (cache, lastCleanupTime)
after the request. -/
structure PostResult (α : Type) where
  response : ApiResponse
  trace : List Ev
  cache2 : Store α
  lastCleanup2 : Nat
deriving Repr

namespace TranslateRoute

def dailyQuotaMessage : String :=
  "Daily translation limit reached. Please try again tomorrow."

def globalLimitMessage : String :=
  "Service is experiencing high demand. Please try again in a moment."

/-- The per-client throttling message, `Too many requests. Please wait
(retryAfter) seconds.` -/
def throttleMessage (retryAfter : Nat) : String :=
  "Too many requests. Please wait " ++ toString retryAfter ++ " seconds."

/-- The body of the request after `request.json()`; `text` not being a string
at all takes the same branch as the empty text. -/
structure TranslationRequestBody where
  text : String
  sourceLanguage : String
  targetLanguage : String
deriving DecidableEq, Repr

def validLanguages : List String := ["en", "ja"]

/-- Outcome of the `fetch` against the Google endpoint: the two throw cases of
the surrounding `try` (a `TypeError`, anything else) or an HTTP completion
with its status and — used only when the status is ok — the translation of the
parsed body. -/
inductive GoogleOutcome
  | threwTypeError
  | threwOther
  | completed (status : Nat) (translatedText : String)
      (detectedSourceLanguage : Option String)
deriving DecidableEq, Repr

/-- `POST /api/translate` (`src/unnamed/part_001` lines 151-382) as a function
of the request, the module state and the outcomes of the two external
interactions (rate limiter, Google call).  `hasApiKey` models the presence of
`process.env.GOOGLE_TRANSLATE_API_KEY`; `romaji` models the string
`generateRomanization` resolves to (that helper catches its own errors and
resolves to `""` then, so it never throws). -/
def POST (rl : RateLimitResult) (req : TranslationRequestBody)
    (cache : Store TransEntry) (lastCleanupTime now : Nat) (hasApiKey : Bool)
    (g : GoogleOutcome) (romaji : String) : PostResult TransEntry :=
  if rl.allowed = false then
    let message :=
      if rl.reason = some "daily_quota" then dailyQuotaMessage
      else if rl.reason = some "global_limit" then globalLimitMessage
      else throttleMessage rl.retryAfter
    { response := { status := 429, code := some "RATE_LIMIT",
                    message := some message, retryAfter := some rl.retryAfter,
                    rlHeaders := some (createRateLimitHeaders rl) },
      trace := [Ev.rateCheck], cache2 := cache, lastCleanup2 := lastCleanupTime }
  else if req.text = "" then
    { response := { status := 400, code := some "INVALID_INPUT",
                    message := some "Please enter valid text to translate." },
      trace := [Ev.rateCheck], cache2 := cache, lastCleanup2 := lastCleanupTime }
  else if (jsTrim req.text).length = 0 then
    { response := { status := 400, code := some "INVALID_INPUT",
                    message := some "Please enter text to translate." },
      trace := [Ev.rateCheck], cache2 := cache, lastCleanup2 := lastCleanupTime }
  else if req.text.length > 5000 then
    { response := { status := 400, code := some "INVALID_INPUT",
                    message :=
                      some "Text exceeds maximum length of 5000 characters." },
      trace := [Ev.rateCheck], cache2 := cache, lastCleanup2 := lastCleanupTime }
  else if !(validLanguages.contains req.sourceLanguage) ||
      !(validLanguages.contains req.targetLanguage) then
    { response := { status := 400, code := some "INVALID_INPUT",
                    message := some "Invalid language selection." },
      trace := [Ev.rateCheck], cache2 := cache, lastCleanup2 := lastCleanupTime }
  else
    match freshLookup (fun e => e.timestamp) CACHE_TTL cache
      (getCacheKey (jsTrim req.text) req.sourceLanguage req.targetLanguage) now with
    | some e =>
      { response := { status := 200, translatedText := some e.translatedText,
                      romanization := e.romanization, cachedFlag := some true,
                      rlHeaders := some (createRateLimitHeaders rl) },
        trace := [Ev.rateCheck, Ev.cacheRead], cache2 := cache,
        lastCleanup2 := lastCleanupTime }
    | none =>
      if hasApiKey = false then
        { response := { status := 500, code := some "AUTH_ERROR",
                        message :=
                          some "Translation service configuration error." },
          trace := [Ev.rateCheck, Ev.cacheRead], cache2 := cache,
          lastCleanup2 := lastCleanupTime }
      else
        match g with
        | .threwTypeError =>
          { response := { status := 503, code := some "NETWORK_ERROR",
                          message :=
                            some "Unable to connect. Please check your internet connection." },
            trace := [Ev.rateCheck, Ev.cacheRead, Ev.extCall], cache2 := cache,
            lastCleanup2 := lastCleanupTime }
        | .threwOther =>
          { response := { status := 500, code := some "API_ERROR",
                          message :=
                            some "Translation service is temporarily unavailable." },
            trace := [Ev.rateCheck, Ev.cacheRead, Ev.extCall], cache2 := cache,
            lastCleanup2 := lastCleanupTime }
        | .completed st txt det =>
          if st = 429 then
            { response := { status := 429, code := some "RATE_LIMIT",
                            message :=
                              some "Too many requests. Please wait a moment and try again." },
              trace := [Ev.rateCheck, Ev.cacheRead, Ev.extCall], cache2 := cache,
              lastCleanup2 := lastCleanupTime }
          else if st = 401 ∨ st = 403 then
            { response := { status := st, code := some "AUTH_ERROR",
                            message :=
                              some "Translation service configuration error." },
              trace := [Ev.rateCheck, Ev.cacheRead, Ev.extCall], cache2 := cache,
              lastCleanup2 := lastCleanupTime }
          else if ¬(200 ≤ st ∧ st < 300) then
            { response := { status := st, code := some "API_ERROR",
                            message :=
                              some "Translation service is temporarily unavailable." },
              trace := [Ev.rateCheck, Ev.cacheRead, Ev.extCall], cache2 := cache,
              lastCleanup2 := lastCleanupTime }
          else
            let rom :=
              if req.targetLanguage = "ja" then
                if romaji = "" then none else some romaji
              else none
            let cache1 := mapSet cache
              (getCacheKey (jsTrim req.text) req.sourceLanguage req.targetLanguage)
              { translatedText := txt, romanization := rom, timestamp := now }
            let cleaned := cleanupCache cache1 lastCleanupTime now
            { response := { status := 200, translatedText := some txt,
                            detectedSourceLanguage := det, romanization := rom,
                            rlHeaders := some (createRateLimitHeaders rl) },
              trace := [Ev.rateCheck, Ev.cacheRead, Ev.extCall, Ev.cacheWrite],
              cache2 := cleaned.1, lastCleanup2 := cleaned.2 }

end TranslateRoute

namespace AnalyzeRoute

def dailyQuotaMessage : String :=
  "Daily analysis limit reached. Please try again tomorrow."

def globalLimitMessage : String :=
  "Service is experiencing high demand. Please try again in a moment."

/-- The per-client throttling message of the analyze route. -/
def throttleMessage (retryAfter : Nat) : String :=
  "Too many requests. Please wait " ++ toString retryAfter ++ " seconds."

/-- `POST /api/analyze-text` (`src/unnamed/part_002` lines 157-254).
`parseResult` is the outcome of `getKuroshiro()` plus
`kuroshiro._analyzer.parse(text)` followed by the pure token simplification:
`some tokens` when it succeeds, `none` when anything in the `try` block throws
(the catch maps every throw to a 500).  Token contents are opaque to every
claim, so the simplification pipeline is not re-modelled here. -/
def POST (rl : RateLimitResult) (text : String) (cache : Store AnalysisEntry)
    (lastCleanupTime now : Nat) (parseResult : Option (List AnalyzedToken)) :
    PostResult AnalysisEntry :=
  if rl.allowed = false then
    let message :=
      if rl.reason = some "daily_quota" then dailyQuotaMessage
      else if rl.reason = some "global_limit" then globalLimitMessage
      else throttleMessage rl.retryAfter
    { response := { status := 429, code := some "RATE_LIMIT",
                    message := some message, retryAfter := some rl.retryAfter,
                    rlHeaders := some (createRateLimitHeaders rl) },
      trace := [Ev.rateCheck], cache2 := cache, lastCleanup2 := lastCleanupTime }
  else if text = "" ∨ (jsTrim text).length = 0 then
    { response := { status := 400,
                    message := some "Please provide valid text to analyze." },
      trace := [Ev.rateCheck], cache2 := cache, lastCleanup2 := lastCleanupTime }
  else if text.length > 5000 then
    { response := { status := 400,
                    message :=
                      some "Text exceeds maximum length of 5000 characters." },
      trace := [Ev.rateCheck], cache2 := cache, lastCleanup2 := lastCleanupTime }
  else
    match freshLookup (fun e => e.timestamp) CACHE_TTL cache (cacheKeyOf text)
      now with
    | some e =>
      { response := { status := 200, tokens := some e.tokens,
                      cachedFlag := some true,
                      rlHeaders := some (createRateLimitHeaders rl) },
        trace := [Ev.rateCheck, Ev.cacheRead], cache2 := cache,
        lastCleanup2 := lastCleanupTime }
    | none =>
      match parseResult with
      | none =>
        { response := { status := 500,
                        message :=
                          some "Failed to analyze text. Please try again." },
          trace := [Ev.rateCheck, Ev.cacheRead, Ev.extCall], cache2 := cache,
          lastCleanup2 := lastCleanupTime }
      | some toks =>
        let cache1 := mapSet cache (cacheKeyOf text)
          { tokens := toks, timestamp := now }
        let cleaned := cleanupCache cache1 lastCleanupTime now
        { response := { status := 200, tokens := some toks,
                        rlHeaders := some (createRateLimitHeaders rl) },
          trace := [Ev.rateCheck, Ev.cacheRead, Ev.extCall, Ev.cacheWrite],
          cache2 := cleaned.1, lastCleanup2 := cleaned.2 }

end AnalyzeRoute

namespace ClientApi

/-- Error object the client api throws (`TranslationAPIError`). -/
structure TranslationAPIError where
  code : String
  message : String
  status : Nat
deriving DecidableEq, Repr

/-- `getErrorMessage` over the `ERROR_MESSAGES` record; unknown codes fall
back to the `API_ERROR` message. -/
def getErrorMessage (code : String) : String :=
  if code = "INVALID_INPUT" then "Please enter valid text to translate."
  else if code = "RATE_LIMIT" then
    "Too many requests. Please wait a moment and try again."
  else if code = "API_ERROR" then "Translation service is temporarily unavailable."
  else if code = "AUTH_ERROR" then "Translation service configuration error."
  else if code = "NETWORK_ERROR" then
    "Unable to connect. Please check your internet connection."
  else if code = "OFFLINE" then
    "You are offline. Please check your internet connection."
  else "Translation service is temporarily unavailable."

/-- How the synchronous head of `translate` (`src/unnamed/part_000` lines
307-356, everything before the first `await`) disposes of a call: throw the
offline error, throw a validation error, return a fresh cache hit, adopt the
pending in-flight request for the key, or create (and register) a new
request. -/
inductive StartOutcome
  | threw (e : TranslationAPIError)
  | cacheHit (r : TranslationAPIResponse)
  | joinPending (p : Nat)
  | createRequest
deriving DecidableEq, Repr

/-- The synchronous head of client `translate`: offline check, validation,
client-cache lookup, pending-request lookup.  `online` is `isOnline()`,
`pending` the `pendingRequests` map (promises named by numbers). -/
def translateStart (online : Bool) (text : String) (source target : Lang)
    (cache : Store ClientEntry) (pending : Store Nat) (now : Nat) :
    StartOutcome :=
  if online = false then
    .threw { code := "OFFLINE", message := getErrorMessage "OFFLINE", status := 0 }
  else if text = "" ∨ (jsTrim text).length = 0 then
    .threw { code := "INVALID_INPUT", message := "Please enter text to translate.",
             status := 400 }
  else if text.length > 5000 then
    .threw { code := "INVALID_INPUT",
             message := "Text exceeds maximum length of 5000 characters.",
             status := 400 }
  else
    match freshLookup (fun e => e.timestamp) CLIENT_CACHE_TTL cache
      (getClientCacheKey text source target) now with
    | some e => .cacheHit e.response
    | none =>
      match mapLookup pending (getClientCacheKey text source target) with
      | some p => .joinPending p
      | none => .createRequest

end ClientApi

/-- Pointwise update of a function, used for the task / promise tables of the
transition systems. -/
def fnUpd {β : Type} (f : Nat → β) (i : Nat) (v : β) : Nat → β :=
  fun j => if j = i then v else f j

namespace ClientCoalescer

/-!
Transition system for the in-flight request deduplication of client
`translate` (`src/unnamed/part_000` lines 341-433), projected onto one cache
key (the `pendingRequests` and `clientCache` operations of distinct keys are
independent `Map` entries).  Atomic segments of the source between `await`
points:

* the synchronous head of `translate` after validation: cache lookup, pending
  lookup, and — in the creating case — running the async IIFE up to its first
  `await` (which dispatches the `fetch`) and registering the promise under the
  key (`pendingRequests.set`), all before control can interleave;
* the IIFE resuming when the `fetch`/`json` completes: on success it writes
  the client cache and resolves, on failure it rejects, with no `await`
  between the cache write and the resolution;
* the creating caller resuming after `await requestPromise`: the `finally`
  deletes the key from `pendingRequests` whatever the outcome was;
* a joining caller resuming when the adopted promise settles.
-/

/-- Outcome of one external request: payloads and errors are opaque numbers. -/
inductive COut
  | ok (payload : Nat)
  | fail (err : Nat)
deriving DecidableEq, Repr

/-- Settlement state of one promise. -/
inductive CPState
  | unsettled
  | settled (o : COut)
deriving DecidableEq, Repr

/-- Program counter of one caller of `translate` for the key. -/
inductive CTask
  | start
  | creatorWait (p : Nat)
  | joinerWait (p : Nat)
  | doneCache (v : Nat)
  | doneCreator (p : Nat) (o : COut)
  | doneJoiner (p : Nat) (o : COut)
deriving DecidableEq, Repr

/-- Process state for the key: the `pendingRequests` entry, the promise table
(ids below `nextP` are allocated), the number of `fetch` dispatches, the
`clientCache` entry, and every caller's program counter. -/
structure CState where
  pendingReq : Option Nat
  promises : Nat → CPState
  nextP : Nat
  fetches : Nat
  cache : Option Nat
  tasks : Nat → CTask

/-- Scheduler choices: let caller `i` run its next atomic segment, or settle
promise `p` with outcome `o` (the `fetch` completing). -/
inductive CChoice
  | tstep (i : Nat)
  | settle (p : Nat) (o : COut)

def cinit : CState :=
  { pendingReq := none, promises := fun _ => .unsettled, nextP := 0,
    fetches := 0, cache := none, tasks := fun _ => .start }

def cstep (s : CState) (c : CChoice) : CState :=
  match c with
  | .tstep i =>
    match s.tasks i with
    | .start =>
      match s.cache with
      | some v => { s with tasks := fnUpd s.tasks i (.doneCache v) }
      | none =>
        match s.pendingReq with
        | some p => { s with tasks := fnUpd s.tasks i (.joinerWait p) }
        | none =>
          { s with promises := fnUpd s.promises s.nextP .unsettled,
                   pendingReq := some s.nextP,
                   fetches := s.fetches + 1,
                   nextP := s.nextP + 1,
                   tasks := fnUpd s.tasks i (.creatorWait s.nextP) }
    | .creatorWait p =>
      match s.promises p with
      | .unsettled => s
      | .settled o =>
        { s with pendingReq := none,
                 tasks := fnUpd s.tasks i (.doneCreator p o) }
    | .joinerWait p =>
      match s.promises p with
      | .unsettled => s
      | .settled o => { s with tasks := fnUpd s.tasks i (.doneJoiner p o) }
    | _ => s
  | .settle p o =>
    if p < s.nextP ∧ s.promises p = .unsettled then
      match o with
      | .ok v =>
        { s with promises := fnUpd s.promises p (.settled o), cache := some v }
      | .fail _ => { s with promises := fnUpd s.promises p (.settled o) }
    else s

def crun (cs : List CChoice) : CState := cs.foldl cstep cinit

/-- A state the system can actually be in. -/
def CReach (s : CState) : Prop := ∃ cs, crun cs = s

/-- Inductive invariant of the client coalescer, per key: the registered
pending id is an allocated promise; every unsettled promise is the registered
one (so at most one request is in flight at any instant); waiting callers
wait on allocated promises; a finished caller's outcome is the settled
outcome of the promise it awaited; the creator of the registered promise is
unique and still registered; a creator that has finished is no longer
registered; and the number of `fetch` dispatches equals the number of
promises ever created. -/
structure Inv (s : CState) : Prop where
  pending_lt : ∀ q, s.pendingReq = some q → q < s.nextP
  unsettled_pending : ∀ p, p < s.nextP → s.promises p = .unsettled →
    s.pendingReq = some p
  wait_lt : ∀ i p, (s.tasks i = .creatorWait p ∨ s.tasks i = .joinerWait p) →
    p < s.nextP
  done_outcome : ∀ i p o,
    (s.tasks i = .doneCreator p o ∨ s.tasks i = .doneJoiner p o) →
    s.promises p = .settled o ∧ p < s.nextP
  creator_pending : ∀ i p, s.tasks i = .creatorWait p → s.pendingReq = some p
  creator_inj : ∀ i j p, s.tasks i = .creatorWait p →
    s.tasks j = .creatorWait p → i = j
  creator_done_cleared : ∀ i p o, s.tasks i = .doneCreator p o →
    s.pendingReq ≠ some p
  fetch_eq : s.fetches = s.nextP

end ClientCoalescer

namespace KuroshiroInit

/-!
Transition system for `getKuroshiro` of the translate route
(`src/unnamed/part_001` lines 75-111): module state `kuroshiroInstance`
(modelled as a flag) and `kuroshiroInitPromise`.  Atomic segments:

* a caller entering `getKuroshiro`: return the instance if set, else adopt
  `kuroshiroInitPromise` if set, else create the promise — the async IIFE
  suspends immediately at `await Promise.all([...])`, after which
  `kuroshiroInitPromise` is assigned and returned, all without interleaving;
* the IIFE completing: on success it sets `kuroshiroInstance`, clears
  `kuroshiroInitPromise` and resolves; on failure (either dynamic `import` or
  `kuroshiro.init` throwing) the promise rejects and — exactly as in the
  source — `kuroshiroInitPromise` is left in place;
* a caller resuming when the promise it awaits settles.

`nextP` doubles as the number of constructions ever triggered.
-/

/-- Settlement state of the construction promise. -/
inductive IPState
  | unsettled
  | resolvedOk
  | rejected
deriving DecidableEq, Repr

/-- Program counter of one caller of `getKuroshiro`. -/
inductive ITask
  | start
  | waiting (p : Nat)
  | doneOk
  | doneErr
deriving DecidableEq, Repr

structure IState where
  inst : Bool
  initPromise : Option Nat
  promises : Nat → IPState
  nextP : Nat
  tasks : Nat → ITask

/-- Scheduler choices: let caller `i` run, or complete the construction body
of promise `p` with the given success flag. -/
inductive IChoice
  | tstep (i : Nat)
  | builderDone (p : Nat) (success : Bool)

def iinit : IState :=
  { inst := false, initPromise := none, promises := fun _ => .unsettled,
    nextP := 0, tasks := fun _ => .start }

def istep (s : IState) (c : IChoice) : IState :=
  match c with
  | .tstep i =>
    match s.tasks i with
    | .start =>
      if s.inst then { s with tasks := fnUpd s.tasks i .doneOk }
      else
        match s.initPromise with
        | some p => { s with tasks := fnUpd s.tasks i (.waiting p) }
        | none =>
          { s with promises := fnUpd s.promises s.nextP .unsettled,
                   initPromise := some s.nextP,
                   nextP := s.nextP + 1,
                   tasks := fnUpd s.tasks i (.waiting s.nextP) }
    | .waiting p =>
      match s.promises p with
      | .unsettled => s
      | .resolvedOk => { s with tasks := fnUpd s.tasks i .doneOk }
      | .rejected => { s with tasks := fnUpd s.tasks i .doneErr }
    | _ => s
  | .builderDone p success =>
    if p < s.nextP ∧ s.promises p = .unsettled then
      if success then
        { s with inst := true, initPromise := none,
                 promises := fnUpd s.promises p .resolvedOk }
      else { s with promises := fnUpd s.promises p .rejected }
    else s

def irun (cs : List IChoice) : IState := cs.foldl istep iinit

def IReach (s : IState) : Prop := ∃ cs, irun cs = s

/-- Inductive invariant of the translate-route singleton initialiser:
construction is triggered at most once (`nextP` counts constructions); once
triggered, either the init promise or the instance is set, so the creating
branch can never run again; every waiting caller waits on the single promise
`0`; a resolved instance implies a successful promise and a cleared marker;
and a rejected promise implies the marker is still set, the instance is not,
and exactly one construction ever happened. -/
structure Inv (s : IState) : Prop where
  ctor_le : s.nextP ≤ 1
  link : s.nextP = 1 → s.initPromise = some 0 ∨ s.inst = true
  fresh : ∀ p, ¬(p < s.nextP) → s.promises p = .unsettled
  waiting0 : ∀ i p, s.tasks i = .waiting p → p = 0 ∧ 1 ≤ s.nextP
  initLt : ∀ p, s.initPromise = some p → p < s.nextP
  instFacts : s.inst = true →
    s.nextP = 1 ∧ s.promises 0 = .resolvedOk ∧ s.initPromise = none
  rejSticky : s.promises 0 = .rejected →
    s.initPromise = some 0 ∧ s.inst = false ∧ s.nextP = 1

end KuroshiroInit

namespace AnalyzeInit

/-!
Transition system for `getKuroshiro` of the analyze route
(`src/unnamed/part_002` lines 76-94).  This version keeps only
`kuroshiroInstance`; there is no init-promise.  A caller that finds the
instance unset proceeds into the construction body and suspends at
`await Promise.all([...])`; when its private construction completes it
assigns `kuroshiroInstance` and returns.
-/

/-- Program counter of one caller of the analyze-route `getKuroshiro`. -/
inductive APC
  | start
  | building
  | doneOk
  | doneErr
deriving DecidableEq, Repr

structure AState where
  inst : Bool
  ctors : Nat
  tasks : Nat → APC

/-- Scheduler choices: let caller `i` take its next step, or complete caller
`i`'s in-progress construction with the given success flag. -/
inductive AChoice
  | tstep (i : Nat)
  | buildDone (i : Nat) (success : Bool)

def ainit : AState := { inst := false, ctors := 0, tasks := fun _ => .start }

def astep (s : AState) (c : AChoice) : AState :=
  match c with
  | .tstep i =>
    match s.tasks i with
    | .start =>
      if s.inst then { s with tasks := fnUpd s.tasks i .doneOk }
      else { s with ctors := s.ctors + 1, tasks := fnUpd s.tasks i .building }
    | _ => s
  | .buildDone i success =>
    match s.tasks i with
    | .building =>
      if success then { s with inst := true, tasks := fnUpd s.tasks i .doneOk }
      else { s with tasks := fnUpd s.tasks i .doneErr }
    | _ => s

def arun (cs : List AChoice) : AState := cs.foldl astep ainit

end AnalyzeInit

/-! ### Concrete instances used by witnesses and counterexamples -/

/-- A 501-entry translation store with pairwise distinct keys and ascending
timestamps. -/
def bigTransStore : Store TranslateRoute.TransEntry :=
  (List.range 501).map
    (fun i => (String.mk (List.replicate i 'a'),
      { translatedText := "", romanization := none, timestamp := i }))

/-- A 201-entry analysis store with pairwise distinct keys and ascending
timestamps. -/
def bigAnalysisStore : Store AnalyzeRoute.AnalysisEntry :=
  (List.range 201).map
    (fun i => (String.mk (List.replicate i 'a'),
      { tokens := [], timestamp := i }))

/-- A 101-entry client store in which every entry was written at time 0. -/
def overfullClientStore : Store ClientApi.ClientEntry :=
  (List.range 101).map
    (fun i => (String.mk (List.replicate i 'a'),
      { response := { translatedText := "", romanization := none },
        timestamp := 0 }))

/-- An allowing rate-limit decision. -/
def rlAllow : RateLimitResult :=
  { allowed := true, reason := none, retryAfter := 0, remaining := 10,
    resetTime := 0 }

/-- A denying rate-limit decision with no specific reason (per-client
throttling). -/
def rlDenyPlain : RateLimitResult :=
  { allowed := false, reason := none, retryAfter := 30, remaining := 0,
    resetTime := 60 }

/-- A text of exactly 5000 characters. -/
def limitText : String := String.mk (List.replicate 5000 'a')

/-- A whitespace-only translate request body. -/
def blankReq : TranslateRoute.TranslationRequestBody :=
  { text := "   ", sourceLanguage := "en", targetLanguage := "ja" }

/-- A one-entry analysis cache whose entry was stored under the exact text
`"abc"` at time 0. -/
def abcAnalysisStore : Store AnalyzeRoute.AnalysisEntry :=
  [("abc", { tokens := [], timestamp := 0 })]

/-! ### Store lemmas -/

theorem foldl_mapDelete_eq_filter {α : Type} (rs : List (String × α)) (m : Store α) :
    rs.foldl (fun acc q => mapDelete acc q.1) m
      = m.filter (fun p => !(rs.any (fun q => q.1 == p.1))) := by
  induction rs generalizing m with
  | nil => simp
  | cons r rs ih =>
    simp only [List.foldl_cons]
    rw [ih]
    unfold mapDelete
    rw [List.filter_filter]
    congr 1
    funext p
    by_cases h : p.1 = r.1
    · simp [h]
    · have h1 : (p.1 == r.1) = false := beq_eq_false_iff_ne.mpr h
      have h2 : (r.1 == p.1) = false := beq_eq_false_iff_ne.mpr (Ne.symm h)
      simp [bne, h1, h2]

theorem keyNodup_mem_eq {α : Type} {m : Store α} (h : keyNodup m) {a b : String × α}
    (ha : a ∈ m) (hb : b ∈ m) (hk : a.1 = b.1) : a = b := by
  induction m with
  | nil => cases ha
  | cons c t ih =>
    unfold keyNodup at h
    simp only [List.map_cons, List.nodup_cons] at h
    rcases List.mem_cons.mp ha with rfl | ha2
    · rcases List.mem_cons.mp hb with rfl | hb2
      · rfl
      · exact absurd (hk ▸ List.mem_map_of_mem Prod.fst hb2) h.1
    · rcases List.mem_cons.mp hb with rfl | hb2
      · exact absurd (hk ▸ List.mem_map_of_mem Prod.fst ha2) h.1
      · exact ih h.2 ha2 hb2

/-- Full characterisation of the size-triggered batch eviction on an
oversized well-formed store: the result has exactly `maxSize / 2` entries,
every removed entry is at most as new as every retained one, and the result
is a subset of the store. -/
theorem evictOldest_spec {α : Type} (ts : α → Nat) (maxSize : Nat) (m : Store α)
    (hnd : keyNodup m) (hlen : m.length > maxSize) :
    (evictOldest ts maxSize m).length = maxSize / 2 ∧
    (∀ e ∈ m, e ∉ evictOldest ts maxSize m →
      ∀ f ∈ evictOldest ts maxSize m, ts e.2 ≤ ts f.2) ∧
    (∀ f ∈ evictOldest ts maxSize m, f ∈ m) := by
  have hle : maxSize / 2 ≤ maxSize := Nat.div_le_self _ _
  set le := fun (a b : String × α) => decide (ts a.2 ≤ ts b.2) with hledef
  set sorted := m.mergeSort le with hsorted
  set k := sorted.length - maxSize / 2 with hk
  set toRemove := sorted.take k with htr
  have hperm : sorted.Perm m := List.mergeSort_perm m le
  have hlen2 : sorted.length = m.length := hperm.length_eq
  have hndS : (sorted.map Prod.fst).Nodup :=
    ((hperm.map Prod.fst).symm).nodup hnd
  have hndSfull : keyNodup sorted := hndS
  have hsplit : toRemove ++ sorted.drop k = sorted := List.take_append_drop k sorted
  have hdisj : ∀ q ∈ toRemove, ∀ p ∈ sorted.drop k, q.1 ≠ p.1 := by
    intro q hq p hp
    have : ((toRemove ++ sorted.drop k).map Prod.fst).Nodup := by
      rw [hsplit]; exact hndS
    rw [List.map_append, List.nodup_append] at this
    exact fun hqp => this.2.2 (List.mem_map_of_mem Prod.fst hq)
      (hqp ▸ List.mem_map_of_mem Prod.fst hp)
  have heq : evictOldest ts maxSize m
      = m.filter (fun p => !(toRemove.any (fun q => q.1 == p.1))) := by
    unfold evictOldest
    rw [if_pos hlen]
    exact foldl_mapDelete_eq_filter _ _
  set P := fun (p : String × α) => !(toRemove.any (fun q => q.1 == p.1)) with hP
  have hPfalse : ∀ q ∈ toRemove, P q = false := by
    intro q hq
    simp only [hP, Bool.not_eq_false', List.any_eq_true]
    exact ⟨q, hq, by simp⟩
  have hPtrue : ∀ p ∈ sorted.drop k, P p = true := by
    intro p hp
    simp only [hP, Bool.not_eq_true', List.any_eq_false]
    intro q hq
    simpa using hdisj q hq p hp
  constructor
  · rw [heq, ← List.countP_eq_length_filter, ← hperm.countP_eq, ← hsplit,
       List.countP_append]
    have h1 : List.countP P toRemove = 0 := by
      rw [List.countP_eq_zero]
      intro a ha
      simp [hPfalse a ha]
    have h2 : List.countP P (sorted.drop k) = (sorted.drop k).length := by
      rw [List.countP_eq_length]
      intro a ha
      simp [hPtrue a ha]
    rw [h1, h2, List.length_drop]
    omega
  constructor
  · intro e hem henot f hf
    rw [heq] at henot hf
    have hPe : ¬ (P e = true) := fun hPe => henot (List.mem_filter.mpr ⟨hem, hPe⟩)
    have hPf := List.mem_filter.mp hf
    have heS : e ∈ sorted := hperm.mem_iff.mpr hem
    have hfS : f ∈ sorted := hperm.mem_iff.mpr hPf.1
    have hany : toRemove.any (fun q => q.1 == e.1) = true := by
      revert hPe; simp [hP]
    have hetake : e ∈ toRemove := by
      rcases List.any_eq_true.mp hany with ⟨q, hq, hqe⟩
      have : q = e := keyNodup_mem_eq hndSfull
        (List.take_subset _ _ hq) heS (by simpa using hqe)
      exact this ▸ hq
    have hfdrop : f ∈ sorted.drop k := by
      rcases List.mem_append.mp (hsplit ▸ hfS) with h | h
      · exact absurd hPf.2 (by simp [hPfalse f h])
      · exact h
    have htrans : ∀ a b c, le a b = true → le b c = true → le a c = true := by
      intro a b c hab hbc
      simp only [hledef, decide_eq_true_eq] at hab hbc ⊢
      omega
    have htotal : ∀ a b, (le a b || le b a) = true := by
      intro a b
      simp only [hledef, Bool.or_eq_true, decide_eq_true_eq]
      omega
    have hsortedP := List.sorted_mergeSort htrans htotal m
    rw [← hsorted, ← hsplit] at hsortedP
    have := (List.pairwise_append.mp hsortedP).2.2 e hetake f hfdrop
    simpa [hledef] using this
  · intro f hf
    rw [heq] at hf
    exact (List.mem_filter.mp hf).1

theorem keyNodup_filter {α : Type} (p : String × α → Bool) {m : Store α}
    (h : keyNodup m) : keyNodup (m.filter p) :=
  ((List.filter_sublist m).map Prod.fst).nodup h

theorem keyNodup_mapSet {α : Type} {m : Store α} (k : String) (v : α)
    (h : keyNodup m) : keyNodup (mapSet m k v) := by
  unfold mapSet
  by_cases hc : m.any (fun p => p.1 == k)
  · rw [if_pos hc]
    unfold keyNodup
    rw [List.map_map]
    have : (Prod.fst ∘ fun p : String × α => if p.1 == k then (k, v) else p)
        = Prod.fst := by
      funext p
      by_cases hp : p.1 = k <;> simp [hp]
    rw [this]
    exact h
  · rw [if_neg hc]
    unfold keyNodup
    rw [List.map_append, List.nodup_append]
    refine ⟨h, List.nodup_singleton k, ?_⟩
    intro a ha hb
    simp only [List.map_cons, List.map_nil, List.mem_singleton] at hb
    subst hb
    rcases List.mem_map.mp ha with ⟨q, hq, rfl⟩
    exact hc (List.any_eq_true.mpr ⟨q, hq, by simp⟩)

theorem evictOldest_length_le {α : Type} (ts : α → Nat) (maxSize : Nat)
    {m : Store α} (h : keyNodup m) :
    (evictOldest ts maxSize m).length ≤ maxSize := by
  by_cases hlen : m.length > maxSize
  · rw [(evictOldest_spec ts maxSize m h hlen).1]
    exact Nat.div_le_self _ _
  · unfold evictOldest
    rw [if_neg hlen]
    omega

/-- The generic server cleanup leaves at most `maxSize` entries, whatever the
TTL sweep did. -/
theorem cleanupCacheG_length_le {α : Type} (ts : α → Nat)
    (ttl maxSize interval : Nat) {m : Store α} (lastCleanupTime now : Nat)
    (h : keyNodup m) :
    ((cleanupCacheG ts ttl maxSize interval m lastCleanupTime now).1).length
      ≤ maxSize := by
  by_cases hi : now - lastCleanupTime > interval
  · have : (cleanupCacheG ts ttl maxSize interval m lastCleanupTime now).1
        = evictOldest ts maxSize (ttlSweep ts ttl now m) := by
      simp [cleanupCacheG, hi]
    rw [this]
    exact evictOldest_length_le _ _ (by unfold ttlSweep; exact keyNodup_filter _ h)
  · have : (cleanupCacheG ts ttl maxSize interval m lastCleanupTime now).1
        = evictOldest ts maxSize m := by
      simp [cleanupCacheG, hi]
    rw [this]
    exact evictOldest_length_le _ _ h

/-- The client cleanup removes nothing when no entry's age exceeds the TTL. -/
theorem cleanupClientCache_fresh (m : Store ClientApi.ClientEntry) (now : Nat)
    (h : ∀ p ∈ m, ¬(now - p.2.timestamp > ClientApi.CLIENT_CACHE_TTL)) :
    ClientApi.cleanupClientCache m now = m := by
  unfold ClientApi.cleanupClientCache
  by_cases hl : m.length > ClientApi.MAX_CLIENT_CACHE_SIZE
  · rw [if_pos hl]
    exact List.filter_eq_self.mpr (fun a ha => by simpa using h a ha)
  · rw [if_neg hl]

/-- Key sets of the concrete stores built from `List.replicate` are
duplicate-free. -/
theorem keyNodup_replicateKeys {α : Type} (n : Nat) (v : Nat → α) :
    keyNodup ((List.range n).map
      (fun i => (String.mk (List.replicate i 'a'), v i))) := by
  unfold keyNodup
  rw [List.map_map]
  have hcomp : (Prod.fst ∘ fun i : Nat => (String.mk (List.replicate i 'a'), v i))
      = fun i : Nat => String.mk (List.replicate i 'a') := rfl
  rw [hcomp]
  refine List.Nodup.map ?_ (List.nodup_range n)
  intro i j hij
  have : (String.mk (List.replicate i 'a')).data.length
      = (String.mk (List.replicate j 'a')).data.length :=
    congrArg (fun s : String => s.data.length) hij
  simpa using this

/-! ### Claim C8 -/

/-- C8 (confirmed): for the server-side caches' eviction step (the
size-triggered half of `cleanupCache` of both routes), whenever the store
size exceeds the configured maximum the removal is oldest-timestamp-first
(every removed entry's timestamp is at most every retained entry's), it stops
with the store at exactly half the maximum (hence at or below it), and every
entry strictly newer than all removed entries is retained. -/
theorem C8_server_eviction_batch :
    (∀ m : Store TranslateRoute.TransEntry, keyNodup m →
      m.length > TranslateRoute.MAX_CACHE_SIZE →
      ((evictOldest (fun e => e.timestamp) TranslateRoute.MAX_CACHE_SIZE m).length
          = TranslateRoute.MAX_CACHE_SIZE / 2 ∧
       (∀ e ∈ m,
          e ∉ evictOldest (fun e => e.timestamp) TranslateRoute.MAX_CACHE_SIZE m →
          ∀ f ∈ evictOldest (fun e => e.timestamp) TranslateRoute.MAX_CACHE_SIZE m,
            e.2.timestamp ≤ f.2.timestamp) ∧
       (∀ f ∈ m,
          (∀ e ∈ m,
            e ∉ evictOldest (fun e => e.timestamp) TranslateRoute.MAX_CACHE_SIZE m →
            e.2.timestamp < f.2.timestamp) →
          f ∈ evictOldest (fun e => e.timestamp) TranslateRoute.MAX_CACHE_SIZE m))) ∧
    (∀ m : Store AnalyzeRoute.AnalysisEntry, keyNodup m →
      m.length > AnalyzeRoute.MAX_CACHE_SIZE →
      ((evictOldest (fun e => e.timestamp) AnalyzeRoute.MAX_CACHE_SIZE m).length
          = AnalyzeRoute.MAX_CACHE_SIZE / 2 ∧
       (∀ e ∈ m,
          e ∉ evictOldest (fun e => e.timestamp) AnalyzeRoute.MAX_CACHE_SIZE m →
          ∀ f ∈ evictOldest (fun e => e.timestamp) AnalyzeRoute.MAX_CACHE_SIZE m,
            e.2.timestamp ≤ f.2.timestamp) ∧
       (∀ f ∈ m,
          (∀ e ∈ m,
            e ∉ evictOldest (fun e => e.timestamp) AnalyzeRoute.MAX_CACHE_SIZE m →
            e.2.timestamp < f.2.timestamp) →
          f ∈ evictOldest (fun e => e.timestamp) AnalyzeRoute.MAX_CACHE_SIZE m))) := by
  constructor
  · intro m hnd hlen
    obtain ⟨h1, h2, _⟩ := evictOldest_spec (fun e => e.timestamp)
      TranslateRoute.MAX_CACHE_SIZE m hnd hlen
    refine ⟨h1, h2, ?_⟩
    intro f hf hnew
    by_contra hnot
    exact absurd (hnew f hf hnot) (lt_irrefl _)
  · intro m hnd hlen
    obtain ⟨h1, h2, _⟩ := evictOldest_spec (fun e => e.timestamp)
      AnalyzeRoute.MAX_CACHE_SIZE m hnd hlen
    refine ⟨h1, h2, ?_⟩
    intro f hf hnew
    by_contra hnot
    exact absurd (hnew f hf hnot) (lt_irrefl _)

/-- Witness for C8: the hypotheses hold at the concrete 501-entry and
201-entry stores and the theorem yields the eviction sizes there. -/
theorem C8_server_eviction_batch_witness :
    keyNodup bigTransStore ∧
    bigTransStore.length > TranslateRoute.MAX_CACHE_SIZE ∧
    keyNodup bigAnalysisStore ∧
    bigAnalysisStore.length > AnalyzeRoute.MAX_CACHE_SIZE ∧
    (evictOldest (fun e => e.timestamp) TranslateRoute.MAX_CACHE_SIZE
        bigTransStore).length = TranslateRoute.MAX_CACHE_SIZE / 2 ∧
    (evictOldest (fun e => e.timestamp) AnalyzeRoute.MAX_CACHE_SIZE
        bigAnalysisStore).length = AnalyzeRoute.MAX_CACHE_SIZE / 2 := by
  have hnd1 : keyNodup bigTransStore := by
    unfold bigTransStore
    exact keyNodup_replicateKeys 501 _
  have hnd2 : keyNodup bigAnalysisStore := by
    unfold bigAnalysisStore
    exact keyNodup_replicateKeys 201 _
  have hl1 : bigTransStore.length > TranslateRoute.MAX_CACHE_SIZE := by
    unfold bigTransStore TranslateRoute.MAX_CACHE_SIZE
    simp
  have hl2 : bigAnalysisStore.length > AnalyzeRoute.MAX_CACHE_SIZE := by
    unfold bigAnalysisStore AnalyzeRoute.MAX_CACHE_SIZE
    simp
  exact ⟨hnd1, hl1, hnd2, hl2,
    (C8_server_eviction_batch.1 bigTransStore hnd1 hl1).1,
    (C8_server_eviction_batch.2 bigAnalysisStore hnd2 hl2).1⟩

/-! ### Claim C4 -/

/-- C4 (counterexample): a 101-entry client store, all of whose entries are
fresh (written at the current instant), stays at 101 entries — above the
configured maximum of 100 — across the cleanup run that the `put` of its last
entry triggered, so the client store's size is not brought back within its
bound when no entry has exceeded its TTL. -/
theorem C4_client_bound_counterexample :
    ClientApi.cleanupClientCache overfullClientStore 0 = overfullClientStore ∧
    overfullClientStore.length = 101 ∧
    ClientApi.MAX_CLIENT_CACHE_SIZE = 100 := by
  refine ⟨?_, by unfold overfullClientStore; simp, rfl⟩
  apply cleanupClientCache_fresh
  intro p hp
  rcases List.mem_map.mp hp with ⟨i, _, rfl⟩
  simp [ClientApi.CLIENT_CACHE_TTL]

/-- C4 (amended): the two server caches obey the size bound — after any
`put`, the cleanup it triggers leaves at most the configured maximum of
entries, even when no entry has exceeded its TTL — but the client cache's
cleanup removes only entries older than its TTL, so it restores no size bound
while all entries are fresh. -/
theorem C4_amended_eviction_bound :
    (∀ (m : Store TranslateRoute.TransEntry) (k : String)
        (v : TranslateRoute.TransEntry) (lastCleanupTime now : Nat),
      keyNodup m →
      ((TranslateRoute.cleanupCache (mapSet m k v) lastCleanupTime now).1).length
        ≤ TranslateRoute.MAX_CACHE_SIZE) ∧
    (∀ (m : Store AnalyzeRoute.AnalysisEntry) (k : String)
        (v : AnalyzeRoute.AnalysisEntry) (lastCleanupTime now : Nat),
      keyNodup m →
      ((AnalyzeRoute.cleanupCache (mapSet m k v) lastCleanupTime now).1).length
        ≤ AnalyzeRoute.MAX_CACHE_SIZE) ∧
    (∀ (m : Store ClientApi.ClientEntry) (now : Nat),
      (∀ p ∈ m, ¬(now - p.2.timestamp > ClientApi.CLIENT_CACHE_TTL)) →
      ClientApi.cleanupClientCache m now = m) := by
  refine ⟨?_, ?_, cleanupClientCache_fresh⟩
  · intro m k v lastCleanupTime now hnd
    exact cleanupCacheG_length_le _ _ _ _ lastCleanupTime now (keyNodup_mapSet k v hnd)
  · intro m k v lastCleanupTime now hnd
    exact cleanupCacheG_length_le _ _ _ _ lastCleanupTime now (keyNodup_mapSet k v hnd)

/-- Witness for C4's amended theorem at concrete inputs: a put into the empty
server stores stays within both bounds, and a fresh singleton client store is
untouched by its cleanup. -/
theorem C4_amended_eviction_bound_witness :
    keyNodup ([] : Store TranslateRoute.TransEntry) ∧
    ((TranslateRoute.cleanupCache
        (mapSet [] "k" { translatedText := "t", romanization := none,
                         timestamp := 0 }) 0 0).1).length
      ≤ TranslateRoute.MAX_CACHE_SIZE ∧
    ((AnalyzeRoute.cleanupCache
        (mapSet [] "k" { tokens := [], timestamp := 0 }) 0 0).1).length
      ≤ AnalyzeRoute.MAX_CACHE_SIZE ∧
    ClientApi.cleanupClientCache
        [("a", { response := { translatedText := "", romanization := none },
                 timestamp := 5 })] 5
      = [("a", { response := { translatedText := "", romanization := none },
                 timestamp := 5 })] := by
  refine ⟨by simp [keyNodup], ?_, ?_, ?_⟩
  · exact C4_amended_eviction_bound.1 [] "k" _ 0 0 (by simp [keyNodup])
  · exact C4_amended_eviction_bound.2.1 [] "k" _ 0 0 (by simp [keyNodup])
  · exact C4_amended_eviction_bound.2.2 _ 5 (by decide)

/-! ### Claim C9 -/

/-- Appending to a fixed string on the right is injective. -/
theorem string_append_right_inj (pre x y : String) :
    pre ++ x = pre ++ y ↔ x = y := by
  constructor
  · intro h
    have hd := congrArg String.data h
    rw [String.data_append, String.data_append] at hd
    exact String.ext (List.append_cancel_left hd)
  · intro h
    rw [h]

/-- C9 (counterexample): on the analyze path the cache is keyed on the raw
text, so the texts `"abc"` and `" abc"` — equal after trimming — do not hit
the same cache entry: with `"abc"` cached, the request for `"abc"` is served
from the cache (`cached: true`, no analyzer call) while the request for
`" abc"` misses and performs the analyzer call. -/
theorem C9_analyze_raw_key_counterexample :
    jsTrim " abc" = jsTrim "abc" ∧
    (AnalyzeRoute.POST rlAllow "abc" abcAnalysisStore 0 0
        (some [])).response.cachedFlag = some true ∧
    Ev.extCall ∉ (AnalyzeRoute.POST rlAllow "abc" abcAnalysisStore 0 0
        (some [])).trace ∧
    (AnalyzeRoute.POST rlAllow " abc" abcAnalysisStore 0 0
        (some [])).response.cachedFlag = none ∧
    Ev.extCall ∈ (AnalyzeRoute.POST rlAllow " abc" abcAnalysisStore 0 0
        (some [])).trace := by
  refine ⟨by decide, ?_, ?_, ?_, ?_⟩ <;> decide

/-- C9 (amended): with fixed operation parameters, the server-translate and
client-translate cache keys of two texts coincide exactly when the texts are
equal after trimming; the analyze path keys its cache on the raw text, so its
keys coincide exactly when the texts are exactly equal (texts differing only
in surrounding whitespace use distinct entries there). -/
theorem C9_amended_key_equality :
    (∀ t1 t2 source target : String,
      (TranslateRoute.getCacheKey (jsTrim t1) source target
          = TranslateRoute.getCacheKey (jsTrim t2) source target)
        ↔ jsTrim t1 = jsTrim t2) ∧
    (∀ (t1 t2 : String) (source target : Lang),
      (ClientApi.getClientCacheKey t1 source target
          = ClientApi.getClientCacheKey t2 source target)
        ↔ jsTrim t1 = jsTrim t2) ∧
    (∀ t1 t2 : String,
      (AnalyzeRoute.cacheKeyOf t1 = AnalyzeRoute.cacheKeyOf t2) ↔ t1 = t2) := by
  refine ⟨?_, ?_, fun t1 t2 => Iff.rfl⟩
  · intro t1 t2 source target
    unfold TranslateRoute.getCacheKey
    exact string_append_right_inj (source ++ ":" ++ target ++ ":") _ _
  · intro t1 t2 source target
    unfold ClientApi.getClientCacheKey
    exact string_append_right_inj
      (languageCode source ++ ":" ++ languageCode target ++ ":") _ _

/-! ### Response-shape lemmas for the two routes -/

theorem throttleMessage_take3 (n : Nat) :
    (TranslateRoute.throttleMessage n).data.take 3 = ['T', 'o', 'o'] := by
  unfold TranslateRoute.throttleMessage
  rw [String.data_append]
  rw [List.take_append_of_le_length (by
    rw [String.data_append, List.length_append]
    have h31 : ("Too many requests. Please wait ").data.length = 31 := by decide
    omega)]
  rw [String.data_append]
  rw [List.take_append_of_le_length (by decide)]
  decide

/-- The interpolated throttling message differs from every string that does
not start with `Too`. -/
theorem throttleMessage_ne (n : Nat) (s : String)
    (hs : s.data.take 3 ≠ ['T', 'o', 'o']) :
    TranslateRoute.throttleMessage n ≠ s :=
  fun h => hs (h ▸ throttleMessage_take3 n)

/-- The analyze route's throttling message is the same string function. -/
theorem analyzeThrottleMessage_eq :
    AnalyzeRoute.throttleMessage = TranslateRoute.throttleMessage := rfl

/-- On a denied rate-limit decision, `POST /api/translate` returns the
structured 429 wholesale: nothing after the admission check runs. -/
theorem TranslateRoute.translatePOST_denied (rl : RateLimitResult)
    (req : TranslationRequestBody) (cache : Store TransEntry)
    (lastCleanupTime now : Nat) (hasApiKey : Bool) (g : GoogleOutcome)
    (romaji : String) (hden : rl.allowed = false) :
    POST rl req cache lastCleanupTime now hasApiKey g romaji =
      { response := { status := 429, code := some "RATE_LIMIT",
                      message := some (if rl.reason = some "daily_quota" then
                          dailyQuotaMessage
                        else if rl.reason = some "global_limit" then
                          globalLimitMessage
                        else throttleMessage rl.retryAfter),
                      retryAfter := some rl.retryAfter,
                      rlHeaders := some (createRateLimitHeaders rl) },
        trace := [Ev.rateCheck], cache2 := cache,
        lastCleanup2 := lastCleanupTime } := by
  unfold POST
  rw [if_pos hden]

/-- On a denied rate-limit decision, `POST /api/analyze-text` returns the
structured 429 wholesale. -/
theorem AnalyzeRoute.analyzePOST_denied (rl : RateLimitResult) (text : String)
    (cache : Store AnalysisEntry) (lastCleanupTime now : Nat)
    (parseResult : Option (List AnalyzedToken)) (hden : rl.allowed = false) :
    POST rl text cache lastCleanupTime now parseResult =
      { response := { status := 429, code := some "RATE_LIMIT",
                      message := some (if rl.reason = some "daily_quota" then
                          dailyQuotaMessage
                        else if rl.reason = some "global_limit" then
                          globalLimitMessage
                        else throttleMessage rl.retryAfter),
                      retryAfter := some rl.retryAfter,
                      rlHeaders := some (createRateLimitHeaders rl) },
        trace := [Ev.rateCheck], cache2 := cache,
        lastCleanup2 := lastCleanupTime } := by
  unfold POST
  rw [if_pos hden]

/-- On an allowed decision and a request failing validation, the translate
route returns 400 `INVALID_INPUT` straight after the admission check: no
cache interaction, no external call, no cache mutation. -/
theorem TranslateRoute.translatePOST_validation (rl : RateLimitResult)
    (req : TranslationRequestBody) (cache : Store TransEntry)
    (lastCleanupTime now : Nat) (hasApiKey : Bool) (g : GoogleOutcome)
    (romaji : String) (hal : rl.allowed = true)
    (hbad : (jsTrim req.text).length = 0 ∨ req.text.length > 5000 ∨
      ¬(validLanguages.contains req.sourceLanguage = true ∧
        validLanguages.contains req.targetLanguage = true)) :
    (POST rl req cache lastCleanupTime now hasApiKey g romaji).response.status
        = 400 ∧
    (POST rl req cache lastCleanupTime now hasApiKey g romaji).response.code
        = some "INVALID_INPUT" ∧
    (POST rl req cache lastCleanupTime now hasApiKey g romaji).trace
        = [Ev.rateCheck] ∧
    (POST rl req cache lastCleanupTime now hasApiKey g romaji).cache2 = cache := by
  have hal2 : ¬(rl.allowed = false) := by simp [hal]
  unfold POST
  rw [if_neg hal2]
  by_cases h1 : req.text = ""
  · rw [if_pos h1]; exact ⟨rfl, rfl, rfl, rfl⟩
  · rw [if_neg h1]
    by_cases h2 : (jsTrim req.text).length = 0
    · rw [if_pos h2]; exact ⟨rfl, rfl, rfl, rfl⟩
    · rw [if_neg h2]
      by_cases h3 : req.text.length > 5000
      · rw [if_pos h3]; exact ⟨rfl, rfl, rfl, rfl⟩
      · rw [if_neg h3]
        have h4 : (!(validLanguages.contains req.sourceLanguage) ||
            !(validLanguages.contains req.targetLanguage)) = true := by
          rcases hbad with hb | hb | hb
          · exact absurd hb h2
          · exact absurd hb h3
          · cases hs : validLanguages.contains req.sourceLanguage <;>
              cases ht : validLanguages.contains req.targetLanguage <;>
              simp_all
        rw [if_pos h4]
        exact ⟨rfl, rfl, rfl, rfl⟩

/-- On an allowed decision and a request failing validation, the analyze
route returns 400 straight after the admission check. -/
theorem AnalyzeRoute.analyzePOST_validation (rl : RateLimitResult) (text : String)
    (cache : Store AnalysisEntry) (lastCleanupTime now : Nat)
    (parseResult : Option (List AnalyzedToken)) (hal : rl.allowed = true)
    (hbad : (jsTrim text).length = 0 ∨ text.length > 5000) :
    (POST rl text cache lastCleanupTime now parseResult).response.status
        = 400 ∧
    (POST rl text cache lastCleanupTime now parseResult).trace
        = [Ev.rateCheck] ∧
    (POST rl text cache lastCleanupTime now parseResult).cache2 = cache := by
  have hal2 : ¬(rl.allowed = false) := by simp [hal]
  unfold POST
  rw [if_neg hal2]
  by_cases h1 : text = "" ∨ (jsTrim text).length = 0
  · rw [if_pos h1]; exact ⟨rfl, rfl, rfl⟩
  · rw [if_neg h1]
    by_cases h2 : text.length > 5000
    · rw [if_pos h2]; exact ⟨rfl, rfl, rfl⟩
    · rw [if_neg h2]
      rcases hbad with hb | hb
      · exact absurd (Or.inr hb) h1
      · exact absurd hb h2
/-- Branch analysis of the translate route: every trace begins with the
admission check, and the oversize-text message is only ever produced for a
text longer than 5000 characters. -/
theorem TranslateRoute.translatePOST_branches (rl : RateLimitResult)
    (req : TranslationRequestBody) (cache : Store TransEntry)
    (lastCleanupTime now : Nat) (hasApiKey : Bool) (g : GoogleOutcome)
    (romaji : String) :
    (POST rl req cache lastCleanupTime now hasApiKey g
        romaji).trace.head? = some Ev.rateCheck ∧
    ((POST rl req cache lastCleanupTime now hasApiKey g
        romaji).response.message
          = some "Text exceeds maximum length of 5000 characters." →
      req.text.length > 5000) := by
  unfold POST
  by_cases h0 : rl.allowed = false
  · rw [if_pos h0]
    refine ⟨rfl, ?_⟩
    intro h
    have hi := Option.some.inj h
    by_cases hr1 : rl.reason = some "daily_quota"
    · rw [if_pos hr1] at hi
      exact absurd hi (by decide)
    · rw [if_neg hr1] at hi
      by_cases hr2 : rl.reason = some "global_limit"
      · rw [if_pos hr2] at hi
        exact absurd hi (by decide)
      · rw [if_neg hr2] at hi
        exact absurd hi (throttleMessage_ne rl.retryAfter _ (by decide))
  · rw [if_neg h0]
    by_cases h1 : req.text = ""
    · rw [if_pos h1]
      exact ⟨rfl, fun h => absurd (Option.some.inj h) (by decide)⟩
    · rw [if_neg h1]
      by_cases h2 : (jsTrim req.text).length = 0
      · rw [if_pos h2]
        exact ⟨rfl, fun h => absurd (Option.some.inj h) (by decide)⟩
      · rw [if_neg h2]
        by_cases h3 : req.text.length > 5000
        · rw [if_pos h3]
          exact ⟨rfl, fun _ => h3⟩
        · rw [if_neg h3]
          by_cases h4 : (!(validLanguages.contains req.sourceLanguage) ||
              !(validLanguages.contains req.targetLanguage)) = true
          · rw [if_pos h4]
            exact ⟨rfl, fun h => absurd (Option.some.inj h) (by decide)⟩
          · rw [if_neg h4]
            cases hfl : freshLookup (fun e => e.timestamp) CACHE_TTL cache
              (getCacheKey (jsTrim req.text) req.sourceLanguage
                req.targetLanguage) now with
            | some e =>
              exact ⟨rfl, fun h => Option.noConfusion h⟩
            | none =>
              by_cases h5 : hasApiKey = false
              · rw [if_pos h5]
                exact ⟨rfl, fun h => absurd (Option.some.inj h) (by decide)⟩
              · rw [if_neg h5]
                cases g with
                | threwTypeError =>
                  exact ⟨rfl, fun h => absurd (Option.some.inj h) (by decide)⟩
                | threwOther =>
                  exact ⟨rfl, fun h => absurd (Option.some.inj h) (by decide)⟩
                | completed st txt det =>
                  dsimp only
                  by_cases h6 : st = 429
                  · rw [if_pos h6]
                    exact ⟨rfl, fun h => absurd (Option.some.inj h) (by decide)⟩
                  · rw [if_neg h6]
                    by_cases h7 : st = 401 ∨ st = 403
                    · rw [if_pos h7]
                      exact ⟨rfl, fun h => absurd (Option.some.inj h) (by decide)⟩
                    · rw [if_neg h7]
                      by_cases h8 : ¬(200 ≤ st ∧ st < 300)
                      · rw [if_pos h8]
                        exact ⟨rfl, fun h => absurd (Option.some.inj h) (by decide)⟩
                      · rw [if_neg h8]
                        exact ⟨rfl, fun h => Option.noConfusion h⟩

/-- Branch analysis of the analyze route: every trace begins with the
admission check, and the oversize-text message is only ever produced for a
text longer than 5000 characters. -/
theorem AnalyzeRoute.analyzePOST_branches (rl : RateLimitResult) (text : String)
    (cache : Store AnalysisEntry) (lastCleanupTime now : Nat)
    (parseResult : Option (List AnalyzedToken)) :
    (POST rl text cache lastCleanupTime now
        parseResult).trace.head? = some Ev.rateCheck ∧
    ((POST rl text cache lastCleanupTime now parseResult).response.message
          = some "Text exceeds maximum length of 5000 characters." →
      text.length > 5000) := by
  unfold POST
  by_cases h0 : rl.allowed = false
  · rw [if_pos h0]
    refine ⟨rfl, ?_⟩
    intro h
    have hi := Option.some.inj h
    by_cases hr1 : rl.reason = some "daily_quota"
    · rw [if_pos hr1] at hi
      exact absurd hi (by decide)
    · rw [if_neg hr1] at hi
      by_cases hr2 : rl.reason = some "global_limit"
      · rw [if_pos hr2] at hi
        exact absurd hi (by decide)
      · rw [if_neg hr2] at hi
        exact absurd hi
          (analyzeThrottleMessage_eq ▸ throttleMessage_ne rl.retryAfter _
            (by decide))
  · rw [if_neg h0]
    by_cases h1 : text = "" ∨ (jsTrim text).length = 0
    · rw [if_pos h1]
      exact ⟨rfl, fun h => absurd (Option.some.inj h) (by decide)⟩
    · rw [if_neg h1]
      by_cases h2 : text.length > 5000
      · rw [if_pos h2]
        exact ⟨rfl, fun _ => h2⟩
      · rw [if_neg h2]
        cases hfl : freshLookup (fun e => e.timestamp) CACHE_TTL cache
          (cacheKeyOf text) now with
        | some e =>
          exact ⟨rfl, fun h => Option.noConfusion h⟩
        | none =>
          cases parseResult with
          | none =>
            exact ⟨rfl, fun h => absurd (Option.some.inj h) (by decide)⟩
          | some toks =>
            exact ⟨rfl, fun h => Option.noConfusion h⟩

/-! ### Client translate lemmas -/

/-- Offline disposes of the call before anything else: the outcome is the
`OFFLINE` error regardless of text, caches or pending requests. -/
theorem ClientApi.translateStart_offline (text : String) (source target : Lang)
    (cache : Store ClientEntry) (pending : Store Nat) (now : Nat) :
    translateStart false text source target cache pending now
      = .threw { code := "OFFLINE", message := getErrorMessage "OFFLINE",
                 status := 0 } := by
  unfold translateStart
  rw [if_pos rfl]

/-- Empty or whitespace-only text (while online) throws the `INVALID_INPUT`
validation error. -/
theorem ClientApi.translateStart_empty (text : String) (source target : Lang)
    (cache : Store ClientEntry) (pending : Store Nat) (now : Nat)
    (h : (jsTrim text).length = 0) :
    translateStart true text source target cache pending now
      = .threw { code := "INVALID_INPUT",
                 message := "Please enter text to translate.", status := 400 } := by
  unfold translateStart
  rw [if_neg (by simp), if_pos (Or.inr h)]

/-- Oversize text (while online, with nonblank content) throws the length
validation error. -/
theorem ClientApi.translateStart_oversize (text : String) (source target : Lang)
    (cache : Store ClientEntry) (pending : Store Nat) (now : Nat)
    (h2 : (jsTrim text).length ≠ 0) (h3 : text.length > 5000) :
    translateStart true text source target cache pending now
      = .threw { code := "INVALID_INPUT",
                 message := "Text exceeds maximum length of 5000 characters.",
                 status := 400 } := by
  unfold translateStart
  have hne : ¬(text = "" ∨ (jsTrim text).length = 0) := by
    rintro (rfl | hlen)
    · exact h2 rfl
    · exact h2 hlen
  rw [if_neg (by simp), if_neg hne, if_pos h3]

/-- A text of exactly 5000 characters is never rejected for length. -/
theorem ClientApi.translateStart_at_limit (text : String) (source target : Lang)
    (cache : Store ClientEntry) (pending : Store Nat) (now : Nat)
    (h : text.length = 5000) :
    translateStart true text source target cache pending now
      ≠ .threw { code := "INVALID_INPUT",
                 message := "Text exceeds maximum length of 5000 characters.",
                 status := 400 } := by
  unfold translateStart
  rw [if_neg (by simp)]
  by_cases h1 : text = "" ∨ (jsTrim text).length = 0
  · rw [if_pos h1]
    intro hcontra
    have := (StartOutcome.threw.inj hcontra)
    exact absurd (congrArg TranslationAPIError.message this) (by decide)
  · rw [if_neg h1, if_neg (by omega)]
    cases hfl : freshLookup (fun e => e.timestamp) CLIENT_CACHE_TTL cache
      (getClientCacheKey text source target) now with
    | some e => exact fun hcontra => StartOutcome.noConfusion hcontra
    | none =>
      cases hml : mapLookup pending (getClientCacheKey text source target) with
      | some p => exact fun hcontra => StartOutcome.noConfusion hcontra
      | none => exact fun hcontra => StartOutcome.noConfusion hcontra

/-! ### Claim C10 -/

/-- C10 (confirmed): in client `translate` the offline check precedes
everything: while offline the outcome is the `OFFLINE` error with status 0 —
whatever the text, the cache, or the pending table — in particular an empty
text yields `OFFLINE`, not `INVALID_INPUT`, and no request is created. -/
theorem C10_offline_precedes_everything :
    (∀ (text : String) (source target : Lang) (cache : Store ClientApi.ClientEntry)
        (pending : Store Nat) (now : Nat),
      ClientApi.translateStart false text source target cache pending now
        = .threw { code := "OFFLINE",
                   message := ClientApi.getErrorMessage "OFFLINE",
                   status := 0 }) ∧
    ClientApi.getErrorMessage "OFFLINE"
      = "You are offline. Please check your internet connection." ∧
    (∀ (source target : Lang) (cache : Store ClientApi.ClientEntry)
        (pending : Store Nat) (now : Nat),
      ClientApi.translateStart false "" source target cache pending now
        ≠ .threw { code := "INVALID_INPUT",
                   message := "Please enter text to translate.",
                   status := 400 } ∧
      ClientApi.translateStart false "" source target cache pending now
        ≠ .createRequest) := by
  refine ⟨ClientApi.translateStart_offline, by decide, ?_⟩
  intro source target cache pending now
  rw [ClientApi.translateStart_offline]
  exact ⟨by decide, by decide⟩

/-- Witness for C10 at a concrete input: the empty text, offline, yields the
`OFFLINE` error. -/
theorem C10_offline_precedes_everything_witness :
    ClientApi.translateStart false "" Lang.en Lang.ja [] [] 0
      = .threw { code := "OFFLINE",
                 message := ClientApi.getErrorMessage "OFFLINE", status := 0 } :=
  C10_offline_precedes_everything.1 "" Lang.en Lang.ja [] [] 0

/-! ### Claim C7 -/

/-- C7 (confirmed): on both the server translate route and the client
translate api, empty or whitespace-only text and text longer than 5000
characters produce the `INVALID_INPUT` error with status 400 and no external
call, while a text of exactly 5000 characters is never rejected for length. -/
theorem C7_translate_validation_limits :
    (∀ (rl : RateLimitResult) (req : TranslateRoute.TranslationRequestBody)
        (cache : Store TranslateRoute.TransEntry) (lc now : Nat) (hk : Bool)
        (g : TranslateRoute.GoogleOutcome) (rom : String),
      rl.allowed = true → (jsTrim req.text).length = 0 →
      (TranslateRoute.POST rl req cache lc now hk g rom).response.status = 400 ∧
      (TranslateRoute.POST rl req cache lc now hk g rom).response.code
        = some "INVALID_INPUT" ∧
      Ev.extCall ∉ (TranslateRoute.POST rl req cache lc now hk g rom).trace) ∧
    (∀ (rl : RateLimitResult) (req : TranslateRoute.TranslationRequestBody)
        (cache : Store TranslateRoute.TransEntry) (lc now : Nat) (hk : Bool)
        (g : TranslateRoute.GoogleOutcome) (rom : String),
      rl.allowed = true → req.text.length > 5000 →
      (TranslateRoute.POST rl req cache lc now hk g rom).response.status = 400 ∧
      (TranslateRoute.POST rl req cache lc now hk g rom).response.code
        = some "INVALID_INPUT" ∧
      Ev.extCall ∉ (TranslateRoute.POST rl req cache lc now hk g rom).trace) ∧
    (∀ (rl : RateLimitResult) (req : TranslateRoute.TranslationRequestBody)
        (cache : Store TranslateRoute.TransEntry) (lc now : Nat) (hk : Bool)
        (g : TranslateRoute.GoogleOutcome) (rom : String),
      req.text.length = 5000 →
      (TranslateRoute.POST rl req cache lc now hk g rom).response.message
        ≠ some "Text exceeds maximum length of 5000 characters.") ∧
    (∀ (text : String) (source target : Lang) (cache : Store ClientApi.ClientEntry)
        (pending : Store Nat) (now : Nat),
      (jsTrim text).length = 0 →
      ClientApi.translateStart true text source target cache pending now
        = .threw { code := "INVALID_INPUT",
                   message := "Please enter text to translate.", status := 400 }) ∧
    (∀ (text : String) (source target : Lang) (cache : Store ClientApi.ClientEntry)
        (pending : Store Nat) (now : Nat),
      (jsTrim text).length ≠ 0 → text.length > 5000 →
      ClientApi.translateStart true text source target cache pending now
        = .threw { code := "INVALID_INPUT",
                   message := "Text exceeds maximum length of 5000 characters.",
                   status := 400 }) ∧
    (∀ (text : String) (source target : Lang) (cache : Store ClientApi.ClientEntry)
        (pending : Store Nat) (now : Nat),
      text.length = 5000 →
      ClientApi.translateStart true text source target cache pending now
        ≠ .threw { code := "INVALID_INPUT",
                   message := "Text exceeds maximum length of 5000 characters.",
                   status := 400 }) := by
  refine ⟨?_, ?_, ?_, ClientApi.translateStart_empty,
    ClientApi.translateStart_oversize, ClientApi.translateStart_at_limit⟩
  · intro rl req cache lc now hk g rom hal hbad
    obtain ⟨h1, h2, h3, _⟩ := TranslateRoute.translatePOST_validation rl req cache lc now
      hk g rom hal (Or.inl hbad)
    refine ⟨h1, h2, ?_⟩
    rw [h3]
    decide
  · intro rl req cache lc now hk g rom hal hbad
    obtain ⟨h1, h2, h3, _⟩ := TranslateRoute.translatePOST_validation rl req cache lc now
      hk g rom hal (Or.inr (Or.inl hbad))
    refine ⟨h1, h2, ?_⟩
    rw [h3]
    decide
  · intro rl req cache lc now hk g rom hlen heq
    have := (TranslateRoute.translatePOST_branches rl req cache lc now hk g rom).2 heq
    omega

/-- Witness for C7 at concrete inputs: a whitespace-only request and an
at-the-limit request on both sides. -/
theorem C7_translate_validation_limits_witness :
    rlAllow.allowed = true ∧ (jsTrim "   ").length = 0 ∧
    (TranslateRoute.POST rlAllow blankReq [] 0 0 true
      (.completed 200 "x" none) "").response.status = 400 ∧
    limitText.length = 5000 ∧
    ClientApi.translateStart true limitText Lang.en Lang.ja [] [] 0
      ≠ .threw { code := "INVALID_INPUT",
                 message := "Text exceeds maximum length of 5000 characters.",
                 status := 400 } := by
  have hlen : limitText.length = 5000 := by
    show (List.replicate 5000 'a').length = 5000
    exact List.length_replicate 5000 'a'
  refine ⟨rfl, by decide, ?_, hlen, ?_⟩
  · exact (C7_translate_validation_limits.1 rlAllow blankReq
      [] 0 0 true (.completed 200 "x" none) "" rfl (by decide)).1
  · exact C7_translate_validation_limits.2.2.2.2.2 limitText Lang.en
      Lang.ja [] [] 0 hlen

/-! ### Claim C3 -/

/-- C3 (counterexample): an empty-text request from a denied client receives
the structured 429 rate-limit response, not the validation error — on both
endpoints the admission check runs first and its denial short-circuits
validation, so the validation error is not detected and returned before the
admission interaction. -/
theorem C3_admission_first_counterexample :
    (TranslateRoute.POST rlDenyPlain
        { text := "", sourceLanguage := "en", targetLanguage := "ja" }
        [] 0 0 true (.completed 200 "x" none) "").response.status = 429 ∧
    (TranslateRoute.POST rlDenyPlain
        { text := "", sourceLanguage := "en", targetLanguage := "ja" }
        [] 0 0 true (.completed 200 "x" none) "").response.code
      = some "RATE_LIMIT" ∧
    (TranslateRoute.POST rlDenyPlain
        { text := "", sourceLanguage := "en", targetLanguage := "ja" }
        [] 0 0 true (.completed 200 "x" none) "").trace = [Ev.rateCheck] ∧
    (AnalyzeRoute.POST rlDenyPlain "" [] 0 0 (some [])).response.status = 429 ∧
    (AnalyzeRoute.POST rlDenyPlain "" [] 0 0 (some [])).response.code
      = some "RATE_LIMIT" := by
  refine ⟨?_, ?_, ?_, ?_, ?_⟩ <;> rfl

/-- C3 (amended): on both endpoints the admission check runs first on every
request; for an admitted request with invalid input, the validation error
(status 400) is detected and returned before any cache interaction or
external call and without mutating the cache; for a denied request the 429
is returned likewise without any cache or external interaction. -/
theorem C3_amended_validation_order :
    (∀ (rl : RateLimitResult) (req : TranslateRoute.TranslationRequestBody)
        (cache : Store TranslateRoute.TransEntry) (lc now : Nat) (hk : Bool)
        (g : TranslateRoute.GoogleOutcome) (rom : String),
      (TranslateRoute.POST rl req cache lc now hk g rom).trace.head?
        = some Ev.rateCheck) ∧
    (∀ (rl : RateLimitResult) (text : String)
        (cache : Store AnalyzeRoute.AnalysisEntry) (lc now : Nat)
        (ptoks : Option (List AnalyzeRoute.AnalyzedToken)),
      (AnalyzeRoute.POST rl text cache lc now ptoks).trace.head?
        = some Ev.rateCheck) ∧
    (∀ (rl : RateLimitResult) (req : TranslateRoute.TranslationRequestBody)
        (cache : Store TranslateRoute.TransEntry) (lc now : Nat) (hk : Bool)
        (g : TranslateRoute.GoogleOutcome) (rom : String),
      rl.allowed = true →
      ((jsTrim req.text).length = 0 ∨ req.text.length > 5000 ∨
        ¬(TranslateRoute.validLanguages.contains req.sourceLanguage = true ∧
          TranslateRoute.validLanguages.contains req.targetLanguage = true)) →
      (TranslateRoute.POST rl req cache lc now hk g rom).response.status = 400 ∧
      (TranslateRoute.POST rl req cache lc now hk g rom).trace = [Ev.rateCheck] ∧
      (TranslateRoute.POST rl req cache lc now hk g rom).cache2 = cache) ∧
    (∀ (rl : RateLimitResult) (text : String)
        (cache : Store AnalyzeRoute.AnalysisEntry) (lc now : Nat)
        (ptoks : Option (List AnalyzeRoute.AnalyzedToken)),
      rl.allowed = true →
      ((jsTrim text).length = 0 ∨ text.length > 5000) →
      (AnalyzeRoute.POST rl text cache lc now ptoks).response.status = 400 ∧
      (AnalyzeRoute.POST rl text cache lc now ptoks).trace = [Ev.rateCheck] ∧
      (AnalyzeRoute.POST rl text cache lc now ptoks).cache2 = cache) ∧
    (∀ (rl : RateLimitResult) (req : TranslateRoute.TranslationRequestBody)
        (cache : Store TranslateRoute.TransEntry) (lc now : Nat) (hk : Bool)
        (g : TranslateRoute.GoogleOutcome) (rom : String),
      rl.allowed = false →
      (TranslateRoute.POST rl req cache lc now hk g rom).response.status = 429 ∧
      (TranslateRoute.POST rl req cache lc now hk g rom).trace = [Ev.rateCheck] ∧
      (TranslateRoute.POST rl req cache lc now hk g rom).cache2 = cache) := by
  refine ⟨?_, ?_, ?_, ?_, ?_⟩
  · intro rl req cache lc now hk g rom
    exact (TranslateRoute.translatePOST_branches rl req cache lc now hk g rom).1
  · intro rl text cache lc now ptoks
    exact (AnalyzeRoute.analyzePOST_branches rl text cache lc now ptoks).1
  · intro rl req cache lc now hk g rom hal hbad
    obtain ⟨h1, _, h3, h4⟩ := TranslateRoute.translatePOST_validation rl req cache lc now
      hk g rom hal hbad
    exact ⟨h1, h3, h4⟩
  · intro rl text cache lc now ptoks hal hbad
    exact AnalyzeRoute.analyzePOST_validation rl text cache lc now ptoks hal hbad
  · intro rl req cache lc now hk g rom hden
    rw [TranslateRoute.translatePOST_denied rl req cache lc now hk g rom hden]
    exact ⟨rfl, rfl, rfl⟩

/-- Witness for C3's amended theorem at a concrete admitted empty-text
request. -/
theorem C3_amended_validation_order_witness :
    rlAllow.allowed = true ∧ (jsTrim "").length = 0 ∧
    (TranslateRoute.POST rlAllow
        { text := "", sourceLanguage := "en", targetLanguage := "ja" }
        [] 0 0 true (.completed 200 "x" none) "").response.status = 400 ∧
    (AnalyzeRoute.POST rlAllow " " [] 0 0 (some [])).response.status = 400 := by
  refine ⟨rfl, by decide, ?_, ?_⟩
  · exact (C3_amended_validation_order.2.2.1 rlAllow
      { text := "", sourceLanguage := "en", targetLanguage := "ja" }
      [] 0 0 true (.completed 200 "x" none) "" rfl (Or.inl (by decide))).1
  · exact (C3_amended_validation_order.2.2.2.1 rlAllow " " [] 0 0 (some [])
      rfl (Or.inl (by decide))).1

/-! ### Claim C6 -/

/-- C6 (confirmed): every request denied by the admission controller gets the
structured 429 on both endpoints — body carrying `RATE_LIMIT`, the
`retryAfter` of the decision, and the rate-limit headers — with the message
chosen most-specific-reason-first (daily quota, then global limit, then
per-client throttling; the three messages are pairwise distinct), and with no
external call and no cache mutation. -/
theorem C6_denied_structured_429 (rl : RateLimitResult)
    (req : TranslateRoute.TranslationRequestBody)
    (cache : Store TranslateRoute.TransEntry) (lc now : Nat) (hk : Bool)
    (g : TranslateRoute.GoogleOutcome) (rom : String) (text : String)
    (acache : Store AnalyzeRoute.AnalysisEntry) (alc anow : Nat)
    (ptoks : Option (List AnalyzeRoute.AnalyzedToken))
    (hden : rl.allowed = false) :
    ((TranslateRoute.POST rl req cache lc now hk g rom).response.status = 429 ∧
     (TranslateRoute.POST rl req cache lc now hk g rom).response.code
        = some "RATE_LIMIT" ∧
     (TranslateRoute.POST rl req cache lc now hk g rom).response.retryAfter
        = some rl.retryAfter ∧
     (TranslateRoute.POST rl req cache lc now hk g rom).response.rlHeaders
        = some (createRateLimitHeaders rl) ∧
     Ev.extCall ∉ (TranslateRoute.POST rl req cache lc now hk g rom).trace ∧
     Ev.cacheWrite ∉ (TranslateRoute.POST rl req cache lc now hk g rom).trace ∧
     (TranslateRoute.POST rl req cache lc now hk g rom).cache2 = cache ∧
     (rl.reason = some "daily_quota" →
       (TranslateRoute.POST rl req cache lc now hk g rom).response.message
         = some TranslateRoute.dailyQuotaMessage) ∧
     (rl.reason ≠ some "daily_quota" → rl.reason = some "global_limit" →
       (TranslateRoute.POST rl req cache lc now hk g rom).response.message
         = some TranslateRoute.globalLimitMessage) ∧
     (rl.reason ≠ some "daily_quota" → rl.reason ≠ some "global_limit" →
       (TranslateRoute.POST rl req cache lc now hk g rom).response.message
         = some (TranslateRoute.throttleMessage rl.retryAfter))) ∧
    ((AnalyzeRoute.POST rl text acache alc anow ptoks).response.status = 429 ∧
     (AnalyzeRoute.POST rl text acache alc anow ptoks).response.code
        = some "RATE_LIMIT" ∧
     (AnalyzeRoute.POST rl text acache alc anow ptoks).response.retryAfter
        = some rl.retryAfter ∧
     (AnalyzeRoute.POST rl text acache alc anow ptoks).response.rlHeaders
        = some (createRateLimitHeaders rl) ∧
     Ev.extCall ∉ (AnalyzeRoute.POST rl text acache alc anow ptoks).trace ∧
     Ev.cacheWrite ∉ (AnalyzeRoute.POST rl text acache alc anow ptoks).trace ∧
     (AnalyzeRoute.POST rl text acache alc anow ptoks).cache2 = acache ∧
     (rl.reason = some "daily_quota" →
       (AnalyzeRoute.POST rl text acache alc anow ptoks).response.message
         = some AnalyzeRoute.dailyQuotaMessage) ∧
     (rl.reason ≠ some "daily_quota" → rl.reason = some "global_limit" →
       (AnalyzeRoute.POST rl text acache alc anow ptoks).response.message
         = some AnalyzeRoute.globalLimitMessage) ∧
     (rl.reason ≠ some "daily_quota" → rl.reason ≠ some "global_limit" →
       (AnalyzeRoute.POST rl text acache alc anow ptoks).response.message
         = some (AnalyzeRoute.throttleMessage rl.retryAfter))) ∧
    (TranslateRoute.dailyQuotaMessage ≠ TranslateRoute.globalLimitMessage ∧
     (∀ n, TranslateRoute.throttleMessage n ≠ TranslateRoute.dailyQuotaMessage) ∧
     (∀ n, TranslateRoute.throttleMessage n ≠ TranslateRoute.globalLimitMessage) ∧
     AnalyzeRoute.dailyQuotaMessage ≠ AnalyzeRoute.globalLimitMessage ∧
     (∀ n, AnalyzeRoute.throttleMessage n ≠ AnalyzeRoute.dailyQuotaMessage) ∧
     (∀ n, AnalyzeRoute.throttleMessage n ≠ AnalyzeRoute.globalLimitMessage)) := by
  rw [TranslateRoute.translatePOST_denied rl req cache lc now hk g rom hden,
    AnalyzeRoute.analyzePOST_denied rl text acache alc anow ptoks hden]
  refine ⟨⟨rfl, rfl, rfl, rfl,
      by show Ev.extCall ∉ [Ev.rateCheck]; decide,
      by show Ev.cacheWrite ∉ [Ev.rateCheck]; decide, rfl, ?_, ?_, ?_⟩,
    ⟨rfl, rfl, rfl, rfl,
      by show Ev.extCall ∉ [Ev.rateCheck]; decide,
      by show Ev.cacheWrite ∉ [Ev.rateCheck]; decide, rfl, ?_, ?_, ?_⟩,
    by decide, fun n => throttleMessage_ne n _ (by decide),
    fun n => throttleMessage_ne n _ (by decide), by decide,
    fun n => analyzeThrottleMessage_eq ▸ throttleMessage_ne n _ (by decide),
    fun n => analyzeThrottleMessage_eq ▸ throttleMessage_ne n _ (by decide)⟩
  · intro hr1
    simp only [hr1]
    rfl
  · intro hr1 hr2
    simp only [if_neg hr1, hr2]
    rfl
  · intro hr1 hr2
    simp only [if_neg hr1, if_neg hr2]
  · intro hr1
    simp only [hr1]
    rfl
  · intro hr1 hr2
    simp only [if_neg hr1, hr2]
    rfl
  · intro hr1 hr2
    simp only [if_neg hr1, if_neg hr2]

/-- Witness for C6 at a concrete denied request on both endpoints. -/
theorem C6_denied_structured_429_witness :
    rlDenyPlain.allowed = false ∧
    (TranslateRoute.POST rlDenyPlain
        { text := "hello", sourceLanguage := "en", targetLanguage := "ja" }
        [] 0 0 true (.completed 200 "x" none) "").response.status = 429 ∧
    (AnalyzeRoute.POST rlDenyPlain "hello" [] 0 0 (some [])).response.retryAfter
      = some rlDenyPlain.retryAfter := by
  refine ⟨rfl, ?_, ?_⟩
  · exact (C6_denied_structured_429 rlDenyPlain
      { text := "hello", sourceLanguage := "en", targetLanguage := "ja" }
      [] 0 0 true (.completed 200 "x" none) "" "hello" [] 0 0 (some []) rfl).1.1
  · exact (C6_denied_structured_429 rlDenyPlain
      { text := "hello", sourceLanguage := "en", targetLanguage := "ja" }
      [] 0 0 true (.completed 200 "x" none) "" "hello" [] 0 0 (some [])
      rfl).2.1.2.2.1

/-! ### Transition-system lemmas -/

theorem fnUpd_self {β : Type} (f : Nat → β) (i : Nat) (v : β) :
    fnUpd f i v i = v := by
  simp [fnUpd]

theorem fnUpd_ne {β : Type} (f : Nat → β) (i : Nat) (v : β) {j : Nat}
    (h : j ≠ i) : fnUpd f i v j = f j := by
  simp [fnUpd, h]

namespace KuroshiroInit


theorem kinv_init : Inv iinit := by
  refine ⟨by decide, ?_, ?_, ?_, ?_, ?_, ?_⟩
  · intro h
    simp [iinit] at h
  · intro p _
    rfl
  · intro i p hj
    exact absurd hj (by simp [iinit])
  · intro p hp
    simp [iinit] at hp
  · intro hi
    simp [iinit] at hi
  · intro hr
    simp [iinit] at hr

theorem kinv_step (s : IState) (c : IChoice) (h : Inv s) : Inv (istep s c) := by
  cases c with
  | tstep i =>
    cases htask : s.tasks i with
    | start =>
      by_cases hinst : s.inst = true
      · have he : istep s (.tstep i) = { s with tasks := fnUpd s.tasks i .doneOk } := by
          simp [istep, htask, hinst]
        rw [he]
        refine ⟨h.ctor_le, h.link, h.fresh, ?_, h.initLt, h.instFacts, h.rejSticky⟩
        intro j p hj
        dsimp only at hj ⊢
        rcases eq_or_ne j i with rfl | hne
        · rw [fnUpd_self] at hj
          exact absurd hj (by simp)
        · rw [fnUpd_ne _ _ _ hne] at hj
          exact h.waiting0 j p hj
      · have hinst2 : s.inst = false := by
          cases hi : s.inst
          · rfl
          · exact absurd hi hinst
        cases hip : s.initPromise with
        | some p =>
          have he : istep s (.tstep i)
              = { s with tasks := fnUpd s.tasks i (.waiting p) } := by
            simp [istep, htask, hinst2, hip]
          rw [he]
          have hplt : p < s.nextP := h.initLt p hip
          refine ⟨h.ctor_le, h.link, h.fresh, ?_, h.initLt, h.instFacts, h.rejSticky⟩
          intro j q hj
          dsimp only at hj ⊢
          rcases eq_or_ne j i with rfl | hne
          · rw [fnUpd_self] at hj
            have hq : q = p := by
              cases hj
              rfl
            subst hq
            have hcl := h.ctor_le
            constructor
            · omega
            · omega
          · rw [fnUpd_ne _ _ _ hne] at hj
            exact h.waiting0 j q hj
        | none =>
          have hz : s.nextP = 0 := by
            have := h.ctor_le
            rcases Nat.lt_or_ge s.nextP 1 with h1 | h1
            · omega
            · have h2 : s.nextP = 1 := by omega
              rcases h.link h2 with hcontra | hcontra
              · rw [hip] at hcontra
                exact absurd hcontra (by simp)
              · exact absurd hcontra hinst
          have he : istep s (.tstep i)
              = { s with promises := fnUpd s.promises s.nextP .unsettled,
                         initPromise := some s.nextP,
                         nextP := s.nextP + 1,
                         tasks := fnUpd s.tasks i (.waiting s.nextP) } := by
            simp [istep, htask, hinst2, hip]
          rw [he]
          refine ⟨?_, ?_, ?_, ?_, ?_, ?_, ?_⟩
          · simp
            omega
          · intro _
            left
            simp
            omega
          · intro p hp
            simp at hp
            dsimp only
            rcases eq_or_ne p s.nextP with rfl | hne
            · rw [fnUpd_self]
            · rw [fnUpd_ne _ _ _ hne]
              exact h.fresh p (by omega)
          · intro j q hj
            simp at hj ⊢
            rcases eq_or_ne j i with rfl | hne
            · rw [fnUpd_self] at hj
              have : q = s.nextP := by
                cases hj
                rfl
              omega
            · rw [fnUpd_ne _ _ _ hne] at hj
              have := (h.waiting0 j q hj).2
              omega
          · intro p hp
            simp at hp ⊢
            omega
          · intro hcontra
            simp at hcontra
            exact absurd hcontra (by
              rw [hinst2]
              simp)
          · intro hcontra
            simp at hcontra
            rcases eq_or_ne (0 : Nat) s.nextP with hzz | hne
            · rw [← hzz] at hcontra
              rw [fnUpd_self] at hcontra
              exact absurd hcontra (by simp)
            · rw [fnUpd_ne _ _ _ hne] at hcontra
              have := h.fresh 0 (by omega)
              rw [this] at hcontra
              exact absurd hcontra (by simp)
    | waiting p =>
      cases hpr : s.promises p with
      | unsettled =>
        have he : istep s (.tstep i) = s := by
          simp [istep, htask, hpr]
        rw [he]
        exact h
      | resolvedOk =>
        have he : istep s (.tstep i)
            = { s with tasks := fnUpd s.tasks i .doneOk } := by
          simp [istep, htask, hpr]
        rw [he]
        refine ⟨h.ctor_le, h.link, h.fresh, ?_, h.initLt, h.instFacts, h.rejSticky⟩
        intro j q hj
        dsimp only at hj ⊢
        rcases eq_or_ne j i with rfl | hne
        · rw [fnUpd_self] at hj
          exact absurd hj (by simp)
        · rw [fnUpd_ne _ _ _ hne] at hj
          exact h.waiting0 j q hj
      | rejected =>
        have he : istep s (.tstep i)
            = { s with tasks := fnUpd s.tasks i .doneErr } := by
          simp [istep, htask, hpr]
        rw [he]
        refine ⟨h.ctor_le, h.link, h.fresh, ?_, h.initLt, h.instFacts, h.rejSticky⟩
        intro j q hj
        dsimp only at hj ⊢
        rcases eq_or_ne j i with rfl | hne
        · rw [fnUpd_self] at hj
          exact absurd hj (by simp)
        · rw [fnUpd_ne _ _ _ hne] at hj
          exact h.waiting0 j q hj
    | doneOk =>
      have he : istep s (.tstep i) = s := by
        simp [istep, htask]
      rw [he]
      exact h
    | doneErr =>
      have he : istep s (.tstep i) = s := by
        simp [istep, htask]
      rw [he]
      exact h
  | builderDone p success =>
    by_cases hg : p < s.nextP ∧ s.promises p = .unsettled
    · have hp0 : p = 0 := by
        have := h.ctor_le
        omega
      have hn1 : s.nextP = 1 := by
        have := h.ctor_le
        omega
      subst hp0
      cases success with
      | true =>
        have he : istep s (.builderDone 0 true)
            = { s with inst := true, initPromise := none,
                       promises := fnUpd s.promises 0 .resolvedOk } := by
          simp [istep, hg]
        rw [he]
        refine ⟨h.ctor_le, ?_, ?_, ?_, ?_, ?_, ?_⟩
        · intro _
          right
          rfl
        · intro q hq
          simp at hq
          dsimp only
          rcases eq_or_ne q 0 with rfl | hne
          · omega
          · rw [fnUpd_ne _ _ _ hne]
            exact h.fresh q (by omega)
        · intro j q hj
          exact h.waiting0 j q hj
        · intro q hq
          exact absurd hq (by simp)
        · intro _
          refine ⟨hn1, ?_, rfl⟩
          dsimp only
          exact fnUpd_self _ _ _
        · intro hcontra
          dsimp only at hcontra
          rw [fnUpd_self] at hcontra
          exact absurd hcontra (by simp)
      | false =>
        have he : istep s (.builderDone 0 false)
            = { s with promises := fnUpd s.promises 0 .rejected } := by
          simp [istep, hg]
        rw [he]
        have hinstF : s.inst = false := by
          cases hi : s.inst
          · rfl
          · obtain ⟨_, hres, _⟩ := h.instFacts hi
            rw [hres] at hg
            exact absurd hg.2 (by simp)
        have hipSome : s.initPromise = some 0 := by
          rcases h.link hn1 with hyes | hno
          · exact hyes
          · exact absurd hno (by rw [hinstF]; simp)
        refine ⟨h.ctor_le, ?_, ?_, ?_, ?_, ?_, ?_⟩
        · intro _
          left
          exact hipSome
        · intro q hq
          simp at hq
          dsimp only
          rcases eq_or_ne q 0 with rfl | hne
          · omega
          · rw [fnUpd_ne _ _ _ hne]
            exact h.fresh q (by omega)
        · intro j q hj
          exact h.waiting0 j q hj
        · intro q hq
          simp at hq ⊢
          exact h.initLt q hq
        · intro hcontra
          exact absurd hcontra (by rw [hinstF]; simp)
        · intro _
          exact ⟨hipSome, hinstF, hn1⟩
    · have he : istep s (.builderDone p success) = s := by
        cases success <;> simp [istep, hg]
      rw [he]
      exact h

theorem kinv_foldl (cs : List IChoice) : ∀ s, Inv s → Inv (cs.foldl istep s) := by
  induction cs with
  | nil => intro s h; exact h
  | cons c cs ih =>
    intro s h
    exact ih (istep s c) (kinv_step s c h)

theorem kinv_reach {s : IState} (h : IReach s) : Inv s := by
  obtain ⟨cs, rfl⟩ := h
  exact kinv_foldl cs iinit kinv_init

end KuroshiroInit

/-! ### Claims C1 and C5 -/

/-- C1 (counterexample): on the analyze path, `getKuroshiro` has no
in-progress marker, so two calls that both pass the `kuroshiroInstance` null
check before either construction completes trigger two constructions
(`ctors = 2`, not exactly one) — although both callers do complete
successfully. -/
theorem C1_analyze_double_construction_counterexample :
    (AnalyzeInit.arun [.tstep 0, .tstep 1, .buildDone 0 true,
        .buildDone 1 true]).ctors = 2 ∧
    (AnalyzeInit.arun [.tstep 0, .tstep 1, .buildDone 0 true,
        .buildDone 1 true]).tasks 0 = .doneOk ∧
    (AnalyzeInit.arun [.tstep 0, .tstep 1, .buildDone 0 true,
        .buildDone 1 true]).tasks 1 = .doneOk ∧
    ¬((AnalyzeInit.arun [.tstep 0, .tstep 1, .buildDone 0 true,
        .buildDone 1 true]).ctors = 1) := by
  refine ⟨?_, ?_, ?_, ?_⟩ <;> decide

/-- C1 (amended): on the translate path the singleton is properly coalesced —
in every reachable state at most one construction has ever been triggered
(`nextP` counts constructions) and every caller that joined during
construction waits on that single promise `0` — while on the analyze path two
concurrent callers that arrive before the singleton exists each trigger a
construction. -/
theorem C1_amended_singleton_coalescing :
    (∀ s, KuroshiroInit.IReach s →
      (s.nextP ≤ 1 ∧ ∀ i p, s.tasks i = .waiting p → p = 0)) ∧
    (AnalyzeInit.arun [.tstep 0, .tstep 1, .buildDone 0 true,
        .buildDone 1 true]).ctors = 2 := by
  refine ⟨?_, by decide⟩
  intro s hs
  have h := KuroshiroInit.kinv_reach hs
  exact ⟨h.ctor_le, fun i p hp => (h.waiting0 i p hp).1⟩

/-- Witness for C1's amended theorem at a concrete reachable state. -/
theorem C1_amended_singleton_coalescing_witness :
    KuroshiroInit.IReach (KuroshiroInit.irun [.tstep 0, .tstep 1]) ∧
    (KuroshiroInit.irun [.tstep 0, .tstep 1]).nextP ≤ 1 :=
  ⟨⟨[.tstep 0, .tstep 1], rfl⟩,
    (C1_amended_singleton_coalescing.1 (KuroshiroInit.irun [.tstep 0, .tstep 1])
      ⟨[.tstep 0, .tstep 1], rfl⟩).1⟩

/-- C5 (counterexample): a failed construction on the translate path leaves
`kuroshiroInitPromise` set to the rejected promise: after the triggering
caller has surfaced the failure (`doneErr`), the marker is still `some 0`, a
second caller joins the same rejected promise and also fails, and no fresh
construction is triggered (`nextP` stays 1). -/
theorem C5_failure_marker_not_cleared_counterexample :
    (KuroshiroInit.irun [.tstep 0, .builderDone 0 false, .tstep 0, .tstep 1,
        .tstep 1]).tasks 0 = .doneErr ∧
    (KuroshiroInit.irun [.tstep 0, .builderDone 0 false, .tstep 0, .tstep 1,
        .tstep 1]).initPromise = some 0 ∧
    (KuroshiroInit.irun [.tstep 0, .builderDone 0 false, .tstep 0, .tstep 1,
        .tstep 1]).tasks 1 = .doneErr ∧
    (KuroshiroInit.irun [.tstep 0, .builderDone 0 false, .tstep 0, .tstep 1,
        .tstep 1]).nextP = 1 := by
  refine ⟨?_, ?_, ?_, ?_⟩ <;> decide

/-- C5 (amended): when construction fails, the in-progress marker is not
cleared: in every reachable state with the promise rejected, the marker still
holds it, the instance is unset, construction happened exactly once, and any
caller that enters `getKuroshiro` next joins the rejected promise instead of
triggering a fresh construction. -/
theorem C5_amended_failure_sticky :
    ∀ s, KuroshiroInit.IReach s → s.promises 0 = .rejected →
      (s.initPromise = some 0 ∧ s.inst = false ∧ s.nextP = 1 ∧
       ∀ i, s.tasks i = .start →
         ((KuroshiroInit.istep s (.tstep i)).tasks i = .waiting 0 ∧
          (KuroshiroInit.istep s (.tstep i)).nextP = 1)) := by
  intro s hs hrej
  have h := KuroshiroInit.kinv_reach hs
  obtain ⟨hip, hinst, hn⟩ := h.rejSticky hrej
  refine ⟨hip, hinst, hn, ?_⟩
  intro i hi
  have he : KuroshiroInit.istep s (.tstep i)
      = { s with tasks := fnUpd s.tasks i (.waiting 0) } := by
    simp [KuroshiroInit.istep, hi, hinst, hip]
  rw [he]
  constructor
  · dsimp only
    exact fnUpd_self _ _ _
  · dsimp only
    exact hn

/-- Witness for C5's amended theorem at the concrete failed run. -/
theorem C5_amended_failure_sticky_witness :
    KuroshiroInit.IReach (KuroshiroInit.irun [.tstep 0, .builderDone 0 false]) ∧
    (KuroshiroInit.irun [.tstep 0, .builderDone 0 false]).promises 0
      = .rejected ∧
    (KuroshiroInit.irun [.tstep 0, .builderDone 0 false]).initPromise
      = some 0 :=
  ⟨⟨[.tstep 0, .builderDone 0 false], rfl⟩, by decide,
    (C5_amended_failure_sticky (KuroshiroInit.irun [.tstep 0, .builderDone 0 false])
      ⟨[.tstep 0, .builderDone 0 false], rfl⟩ (by decide)).1⟩

namespace ClientCoalescer


theorem cinv_init : Inv cinit := by
  refine ⟨?_, ?_, ?_, ?_, ?_, ?_, ?_, rfl⟩
  · intro q hq
    simp [cinit] at hq
  · intro p hp _
    simp [cinit] at hp
  · intro i p hp
    rcases hp with hp | hp <;> exact absurd hp (by simp [cinit])
  · intro i p o hp
    rcases hp with hp | hp <;> exact absurd hp (by simp [cinit])
  · intro i p hp
    exact absurd hp (by simp [cinit])
  · intro i j p hp _
    exact absurd hp (by simp [cinit])
  · intro i p o hp
    exact absurd hp (by simp [cinit])

theorem cinv_step (s : CState) (c : CChoice) (h : Inv s) : Inv (cstep s c) := by
  cases c with
  | tstep i =>
    cases htask : s.tasks i with
    | start =>
      cases hcache : s.cache with
      | some v =>
        have he : cstep s (.tstep i)
            = { s with tasks := fnUpd s.tasks i (.doneCache v) } := by
          simp [cstep, htask, hcache]
        rw [he]
        refine ⟨h.pending_lt, h.unsettled_pending, ?_, ?_, ?_, ?_, ?_, h.fetch_eq⟩
        · intro j p hj
          dsimp only at hj
          rcases eq_or_ne j i with rfl | hne
          · rw [fnUpd_self] at hj
            rcases hj with hj | hj <;> exact absurd hj (by simp)
          · rw [fnUpd_ne _ _ _ hne] at hj
            exact h.wait_lt j p hj
        · intro j p o hj
          dsimp only at hj
          rcases eq_or_ne j i with rfl | hne
          · rw [fnUpd_self] at hj
            rcases hj with hj | hj <;> exact absurd hj (by simp)
          · rw [fnUpd_ne _ _ _ hne] at hj
            exact h.done_outcome j p o hj
        · intro j p hj
          dsimp only at hj
          rcases eq_or_ne j i with rfl | hne
          · rw [fnUpd_self] at hj
            exact absurd hj (by simp)
          · rw [fnUpd_ne _ _ _ hne] at hj
            exact h.creator_pending j p hj
        · intro j k p hj hk
          dsimp only at hj hk
          rcases eq_or_ne j i with rfl | hnej
          · rw [fnUpd_self] at hj
            exact absurd hj (by simp)
          · rw [fnUpd_ne _ _ _ hnej] at hj
            rcases eq_or_ne k i with rfl | hnek
            · rw [fnUpd_self] at hk
              exact absurd hk (by simp)
            · rw [fnUpd_ne _ _ _ hnek] at hk
              exact h.creator_inj j k p hj hk
        · intro j p o hj
          dsimp only at hj
          rcases eq_or_ne j i with rfl | hne
          · rw [fnUpd_self] at hj
            exact absurd hj (by simp)
          · rw [fnUpd_ne _ _ _ hne] at hj
            exact h.creator_done_cleared j p o hj
      | none =>
        cases hpend : s.pendingReq with
        | some p =>
          have he : cstep s (.tstep i)
              = { s with tasks := fnUpd s.tasks i (.joinerWait p) } := by
            simp [cstep, htask, hcache, hpend]
          rw [he]
          have hplt : p < s.nextP := h.pending_lt p hpend
          refine ⟨h.pending_lt, h.unsettled_pending, ?_, ?_, ?_, ?_, ?_,
            h.fetch_eq⟩
          · intro j q hj
            dsimp only at hj
            rcases eq_or_ne j i with rfl | hne
            · rw [fnUpd_self] at hj
              rcases hj with hj | hj
              · exact absurd hj (by simp)
              · cases hj
                exact hplt
            · rw [fnUpd_ne _ _ _ hne] at hj
              exact h.wait_lt j q hj
          · intro j q o hj
            dsimp only at hj
            rcases eq_or_ne j i with rfl | hne
            · rw [fnUpd_self] at hj
              rcases hj with hj | hj <;> exact absurd hj (by simp)
            · rw [fnUpd_ne _ _ _ hne] at hj
              exact h.done_outcome j q o hj
          · intro j q hj
            dsimp only at hj
            rcases eq_or_ne j i with rfl | hne
            · rw [fnUpd_self] at hj
              exact absurd hj (by simp)
            · rw [fnUpd_ne _ _ _ hne] at hj
              exact h.creator_pending j q hj
          · intro j k q hj hk
            dsimp only at hj hk
            rcases eq_or_ne j i with rfl | hnej
            · rw [fnUpd_self] at hj
              exact absurd hj (by simp)
            · rw [fnUpd_ne _ _ _ hnej] at hj
              rcases eq_or_ne k i with rfl | hnek
              · rw [fnUpd_self] at hk
                exact absurd hk (by simp)
              · rw [fnUpd_ne _ _ _ hnek] at hk
                exact h.creator_inj j k q hj hk
          · intro j q o hj
            dsimp only at hj
            rcases eq_or_ne j i with rfl | hne
            · rw [fnUpd_self] at hj
              exact absurd hj (by simp)
            · rw [fnUpd_ne _ _ _ hne] at hj
              exact h.creator_done_cleared j q o hj
        | none =>
          have he : cstep s (.tstep i)
              = { s with promises := fnUpd s.promises s.nextP .unsettled,
                         pendingReq := some s.nextP,
                         fetches := s.fetches + 1,
                         nextP := s.nextP + 1,
                         tasks := fnUpd s.tasks i (.creatorWait s.nextP) } := by
            simp [cstep, htask, hcache, hpend]
          rw [he]
          have hnocreator : ∀ j q, ¬(s.tasks j = .creatorWait q) := by
            intro j q hj
            have := h.creator_pending j q hj
            rw [hpend] at this
            exact Option.noConfusion this
          refine ⟨?_, ?_, ?_, ?_, ?_, ?_, ?_, ?_⟩
          · intro q hq
            dsimp only at hq ⊢
            cases hq
            omega
          · intro q hq hunset
            dsimp only at hq hunset ⊢
            rcases eq_or_ne q s.nextP with rfl | hne
            · rfl
            · rw [fnUpd_ne _ _ _ hne] at hunset
              have := h.unsettled_pending q (by omega) hunset
              rw [hpend] at this
              exact absurd this (by simp)
          · intro j q hj
            dsimp only at hj ⊢
            rcases eq_or_ne j i with rfl | hne
            · rw [fnUpd_self] at hj
              rcases hj with hj | hj
              · cases hj
                omega
              · exact absurd hj (by simp)
            · rw [fnUpd_ne _ _ _ hne] at hj
              have := h.wait_lt j q hj
              omega
          · intro j q o hj
            dsimp only at hj ⊢
            rcases eq_or_ne j i with rfl | hne
            · rw [fnUpd_self] at hj
              rcases hj with hj | hj <;> exact absurd hj (by simp)
            · rw [fnUpd_ne _ _ _ hne] at hj
              obtain ⟨h1, h2⟩ := h.done_outcome j q o hj
              constructor
              · rw [fnUpd_ne _ _ _ (by omega)]
                exact h1
              · omega
          · intro j q hj
            dsimp only at hj ⊢
            rcases eq_or_ne j i with rfl | hne
            · rw [fnUpd_self] at hj
              cases hj
              rfl
            · rw [fnUpd_ne _ _ _ hne] at hj
              exact absurd hj (hnocreator j q)
          · intro j k q hj hk
            dsimp only at hj hk
            rcases eq_or_ne j i with rfl | hnej
            · rcases eq_or_ne k j with rfl | hnek
              · rfl
              · rw [fnUpd_ne _ _ _ hnek] at hk
                exact absurd hk (hnocreator k q)
            · rw [fnUpd_ne _ _ _ hnej] at hj
              exact absurd hj (hnocreator j q)
          · intro j q o hj
            dsimp only at hj ⊢
            rcases eq_or_ne j i with rfl | hne
            · rw [fnUpd_self] at hj
              exact absurd hj (by simp)
            · rw [fnUpd_ne _ _ _ hne] at hj
              have := (h.done_outcome j q o (Or.inl hj)).2
              intro hcontra
              cases hcontra
              omega
          · dsimp only
            rw [h.fetch_eq]
    | creatorWait p =>
      cases hpr : s.promises p with
      | unsettled =>
        have he : cstep s (.tstep i) = s := by
          simp [cstep, htask, hpr]
        rw [he]
        exact h
      | settled o =>
        have he : cstep s (.tstep i)
            = { s with pendingReq := none,
                       tasks := fnUpd s.tasks i (.doneCreator p o) } := by
          simp [cstep, htask, hpr]
        rw [he]
        have hplt : p < s.nextP := h.wait_lt i p (Or.inl htask)
        refine ⟨?_, ?_, ?_, ?_, ?_, ?_, ?_, h.fetch_eq⟩
        · intro q hq
          dsimp only at hq
          exact absurd hq (by simp)
        · intro q hq hunset
          dsimp only at hq hunset ⊢
          have h1 := h.unsettled_pending q hq hunset
          have h2 := h.creator_pending i p htask
          rw [h1] at h2
          have : q = p := by
            cases h2
            rfl
          subst this
          rw [hpr] at hunset
          exact absurd hunset (by simp)
        · intro j q hj
          dsimp only at hj
          rcases eq_or_ne j i with rfl | hne
          · rw [fnUpd_self] at hj
            rcases hj with hj | hj <;> exact absurd hj (by simp)
          · rw [fnUpd_ne _ _ _ hne] at hj
            exact h.wait_lt j q hj
        · intro j q o2 hj
          dsimp only at hj ⊢
          rcases eq_or_ne j i with rfl | hne
          · rw [fnUpd_self] at hj
            rcases hj with hj | hj
            · cases hj
              exact ⟨hpr, hplt⟩
            · exact absurd hj (by simp)
          · rw [fnUpd_ne _ _ _ hne] at hj
            exact h.done_outcome j q o2 hj
        · intro j q hj
          dsimp only at hj
          rcases eq_or_ne j i with rfl | hne
          · rw [fnUpd_self] at hj
            exact absurd hj (by simp)
          · rw [fnUpd_ne _ _ _ hne] at hj
            have h1 := h.creator_pending j q hj
            have h2 := h.creator_pending i p htask
            rw [h1] at h2
            have : q = p := by
              cases h2
              rfl
            subst this
            exact absurd (h.creator_inj j i q hj htask) hne
        · intro j k q hj hk
          dsimp only at hj hk
          rcases eq_or_ne j i with rfl | hnej
          · rw [fnUpd_self] at hj
            exact absurd hj (by simp)
          · rw [fnUpd_ne _ _ _ hnej] at hj
            rcases eq_or_ne k i with rfl | hnek
            · rw [fnUpd_self] at hk
              exact absurd hk (by simp)
            · rw [fnUpd_ne _ _ _ hnek] at hk
              exact h.creator_inj j k q hj hk
        · intro j q o2 hj
          dsimp only at hj ⊢
          simp
    | joinerWait p =>
      cases hpr : s.promises p with
      | unsettled =>
        have he : cstep s (.tstep i) = s := by
          simp [cstep, htask, hpr]
        rw [he]
        exact h
      | settled o =>
        have he : cstep s (.tstep i)
            = { s with tasks := fnUpd s.tasks i (.doneJoiner p o) } := by
          simp [cstep, htask, hpr]
        rw [he]
        have hplt : p < s.nextP := h.wait_lt i p (Or.inr htask)
        refine ⟨h.pending_lt, h.unsettled_pending, ?_, ?_, ?_, ?_, ?_,
          h.fetch_eq⟩
        · intro j q hj
          dsimp only at hj
          rcases eq_or_ne j i with rfl | hne
          · rw [fnUpd_self] at hj
            rcases hj with hj | hj <;> exact absurd hj (by simp)
          · rw [fnUpd_ne _ _ _ hne] at hj
            exact h.wait_lt j q hj
        · intro j q o2 hj
          dsimp only at hj ⊢
          rcases eq_or_ne j i with rfl | hne
          · rw [fnUpd_self] at hj
            rcases hj with hj | hj
            · exact absurd hj (by simp)
            · cases hj
              exact ⟨hpr, hplt⟩
          · rw [fnUpd_ne _ _ _ hne] at hj
            exact h.done_outcome j q o2 hj
        · intro j q hj
          dsimp only at hj
          rcases eq_or_ne j i with rfl | hne
          · rw [fnUpd_self] at hj
            exact absurd hj (by simp)
          · rw [fnUpd_ne _ _ _ hne] at hj
            exact h.creator_pending j q hj
        · intro j k q hj hk
          dsimp only at hj hk
          rcases eq_or_ne j i with rfl | hnej
          · rw [fnUpd_self] at hj
            exact absurd hj (by simp)
          · rw [fnUpd_ne _ _ _ hnej] at hj
            rcases eq_or_ne k i with rfl | hnek
            · rw [fnUpd_self] at hk
              exact absurd hk (by simp)
            · rw [fnUpd_ne _ _ _ hnek] at hk
              exact h.creator_inj j k q hj hk
        · intro j q o2 hj
          dsimp only at hj
          rcases eq_or_ne j i with rfl | hne
          · rw [fnUpd_self] at hj
            exact absurd hj (by simp)
          · rw [fnUpd_ne _ _ _ hne] at hj
            exact h.creator_done_cleared j q o2 hj
    | doneCache v =>
      have he : cstep s (.tstep i) = s := by
        simp [cstep, htask]
      rw [he]
      exact h
    | doneCreator p o =>
      have he : cstep s (.tstep i) = s := by
        simp [cstep, htask]
      rw [he]
      exact h
    | doneJoiner p o =>
      have he : cstep s (.tstep i) = s := by
        simp [cstep, htask]
      rw [he]
      exact h
  | settle p o =>
    by_cases hg : p < s.nextP ∧ s.promises p = .unsettled
    · have he : cstep s (.settle p o)
          = { s with promises := fnUpd s.promises p (.settled o),
                     cache := match o with
                       | .ok v => some v
                       | .fail _ => s.cache } := by
        cases o with
        | ok v => simp [cstep, hg]
        | fail e => simp [cstep, hg]
      rw [he]
      refine ⟨h.pending_lt, ?_, h.wait_lt, ?_, h.creator_pending,
        h.creator_inj, h.creator_done_cleared, h.fetch_eq⟩
      · intro q hq hunset
        dsimp only at hq hunset ⊢
        rcases eq_or_ne q p with rfl | hne
        · rw [fnUpd_self] at hunset
          exact absurd hunset (by simp)
        · rw [fnUpd_ne _ _ _ hne] at hunset
          exact h.unsettled_pending q hq hunset
      · intro j q o2 hj
        dsimp only at hj ⊢
        obtain ⟨h1, h2⟩ := h.done_outcome j q o2 hj
        rcases eq_or_ne q p with rfl | hne
        · rw [h1] at hg
          exact absurd hg.2 (by simp)
        · rw [fnUpd_ne _ _ _ hne]
          exact ⟨h1, h2⟩
    · have he : cstep s (.settle p o) = s := by
        cases o with
        | ok v => simp [cstep, hg]
        | fail e => simp [cstep, hg]
      rw [he]
      exact h

theorem cinv_foldl (cs : List CChoice) : ∀ s, Inv s → Inv (cs.foldl cstep s) := by
  induction cs with
  | nil => intro s h; exact h
  | cons c cs ih =>
    intro s h
    exact ih (cstep s c) (cinv_step s c h)

theorem cinv_reach {s : CState} (h : CReach s) : Inv s := by
  obtain ⟨cs, rfl⟩ := h
  exact cinv_foldl cs cinit cinv_init

end ClientCoalescer

/-! ### Claim C2 -/

/-- C2 (confirmed): for the client-side translate coalescer (per key): in
every reachable state at most one request is unsettled at any instant; every
finished caller — creator or joiner — carries exactly the settled outcome of
the request it awaited, so all callers of one in-flight window share one
outcome (identical payload on success, the same error on failure); the
creating caller's step after settlement removes the pending entry
unconditionally — for failures exactly as for successes — and delivers the
outcome; and from any state with no pending entry a new caller starts a fresh
request, so a failed call never permanently blocks a retry. -/
theorem C2_client_coalescer :
    (∀ s, ClientCoalescer.CReach s →
      ∀ p q, p < s.nextP → q < s.nextP →
        s.promises p = .unsettled → s.promises q = .unsettled → p = q) ∧
    (∀ s, ClientCoalescer.CReach s →
      ∀ i p o, (s.tasks i = .doneCreator p o ∨ s.tasks i = .doneJoiner p o) →
        s.promises p = .settled o) ∧
    (∀ s, ClientCoalescer.CReach s →
      ∀ i j p o o2,
        (s.tasks i = .doneCreator p o ∨ s.tasks i = .doneJoiner p o) →
        (s.tasks j = .doneCreator p o2 ∨ s.tasks j = .doneJoiner p o2) →
        o = o2) ∧
    (∀ (s : ClientCoalescer.CState) (i p : Nat) (o : ClientCoalescer.COut),
      s.tasks i = .creatorWait p → s.promises p = .settled o →
      ((ClientCoalescer.cstep s (.tstep i)).pendingReq = none ∧
       (ClientCoalescer.cstep s (.tstep i)).tasks i = .doneCreator p o)) ∧
    (∀ (s : ClientCoalescer.CState) (i : Nat), s.tasks i = .start →
      s.cache = none → s.pendingReq = none →
      ((ClientCoalescer.cstep s (.tstep i)).fetches = s.fetches + 1 ∧
       (ClientCoalescer.cstep s (.tstep i)).pendingReq = some s.nextP)) := by
  refine ⟨?_, ?_, ?_, ?_, ?_⟩
  · intro s hs p q hp hq hup huq
    have h := ClientCoalescer.cinv_reach hs
    have h1 := h.unsettled_pending p hp hup
    have h2 := h.unsettled_pending q hq huq
    rw [h1] at h2
    cases h2
    rfl
  · intro s hs i p o hi
    have h := ClientCoalescer.cinv_reach hs
    exact (h.done_outcome i p o hi).1
  · intro s hs i j p o o2 hi hj
    have h := ClientCoalescer.cinv_reach hs
    have h1 := (h.done_outcome i p o hi).1
    have h2 := (h.done_outcome j p o2 hj).1
    rw [h1] at h2
    cases h2
    rfl
  · intro s i p o hi hset
    have he : ClientCoalescer.cstep s (.tstep i)
        = { s with pendingReq := none,
                   tasks := fnUpd s.tasks i (.doneCreator p o) } := by
      simp [ClientCoalescer.cstep, hi, hset]
    rw [he]
    constructor
    · rfl
    · dsimp only
      exact fnUpd_self _ _ _
  · intro s i hi hcache hpend
    have he : ClientCoalescer.cstep s (.tstep i)
        = { s with promises := fnUpd s.promises s.nextP .unsettled,
                   pendingReq := some s.nextP,
                   fetches := s.fetches + 1,
                   nextP := s.nextP + 1,
                   tasks := fnUpd s.tasks i (.creatorWait s.nextP) } := by
      simp [ClientCoalescer.cstep, hi, hcache, hpend]
    rw [he]
    exact ⟨rfl, rfl⟩

/-- Witness for C2 at concrete runs: a single creator gives the only
unsettled request; after its request fails, the creator's next step clears
the pending entry; and a fresh caller afterwards starts a new request. -/
theorem C2_client_coalescer_witness :
    ClientCoalescer.CReach (ClientCoalescer.crun [.tstep 0]) ∧
    (ClientCoalescer.crun [.tstep 0]).promises 0 = .unsettled ∧
    (ClientCoalescer.crun [.tstep 0, .settle 0 (.fail 7)]).tasks 0
      = .creatorWait 0 ∧
    (ClientCoalescer.crun [.tstep 0, .settle 0 (.fail 7)]).promises 0
      = .settled (.fail 7) ∧
    (ClientCoalescer.cstep (ClientCoalescer.crun [.tstep 0, .settle 0 (.fail 7)])
        (.tstep 0)).pendingReq = none ∧
    (ClientCoalescer.crun [.tstep 0, .settle 0 (.fail 7), .tstep 0]).tasks 1
      = .start ∧
    (ClientCoalescer.cstep
        (ClientCoalescer.crun [.tstep 0, .settle 0 (.fail 7), .tstep 0])
        (.tstep 1)).fetches
      = (ClientCoalescer.crun [.tstep 0, .settle 0 (.fail 7), .tstep 0]).fetches
          + 1 := by
  refine ⟨⟨[.tstep 0], rfl⟩, by decide, by decide, by decide, ?_, by decide, ?_⟩
  · exact (C2_client_coalescer.2.2.2.1
      (ClientCoalescer.crun [.tstep 0, .settle 0 (.fail 7)]) 0 0 (.fail 7)
      (by decide) (by decide)).1
  · exact (C2_client_coalescer.2.2.2.2
      (ClientCoalescer.crun [.tstep 0, .settle 0 (.fail 7), .tstep 0]) 1
      (by decide) (by decide) (by decide)).1
